import Mathlib

/-!
# Verification of the axiom-core attestation evidence model

Shallow embedding of the canonical serializer (`src/core/canonical.ts`),
the attestation report parser (`src/attestation`, `parseAttestationReport`
and friends), the attestation verifier (`src/attestation/verifier.ts`) and
the session binder (`src/runtime/session.ts`), together with theorems
settling the specification claims about them.

Modelling conventions:
* byte buffers (`Uint8Array`, `Buffer`) are `List Nat` with every element
  `< 256` where it matters;
* JavaScript strings are Lean `String`s (`localeCompare` and the default
  `Array.sort` string comparison are modelled as code-point order);
* JavaScript numbers in attribute values are modelled as rationals `ℚ`
  (IEEE-754 doubles are outside the embedding; the `-0`/non-finite branches
  of `normalizeNumber` have no rational counterpart and are noted where
  relevant);
* fallible code returns `Except String`; mutation is explicit state passing.
-/

namespace AxiomCore

/-! ## Bytes, hex, UTF-8 -/

/-- Hex value of a single character, `none` for non-hex characters.
Accepts both cases, mirroring `Buffer.from(s, "hex")` and the
`/^[0-9a-f]{64}$/i` regex. -/
def hexVal (c : Char) : Option Nat :=
  if '0' ≤ c ∧ c ≤ '9' then some (c.toNat - 48)
  else if 'a' ≤ c ∧ c ≤ 'f' then some (c.toNat - 87)
  else if 'A' ≤ c ∧ c ≤ 'F' then some (c.toNat - 55)
  else none

/-- Node's `Buffer.from(s, "hex")`: decode pairs of hex digits,
stopping at the first incomplete or invalid pair. -/
def hexDecodeAux : List Char → List Nat
  | c1 :: c2 :: rest =>
    match hexVal c1, hexVal c2 with
    | some a, some b => (a * 16 + b) :: hexDecodeAux rest
    | _, _ => []
  | _ => []

/-- `Buffer.from(s, "hex")` as a byte list. -/
def hexDecode (s : String) : List Nat := hexDecodeAux s.data

/-- Lowercase hex digit for a value `< 16`. -/
def hexDigit (n : Nat) : Char :=
  if n < 10 then Char.ofNat (48 + n) else Char.ofNat (87 + n)

/-- Lowercase hex encoding of a byte list (Node's `buf.toString("hex")`,
also the `b.toString(16).padStart(2, "0")` loop of the report parser). -/
def hexEncode : List Nat → String
  | [] => ""
  | b :: rest =>
    String.mk [hexDigit (b / 16 % 16), hexDigit (b % 16)] ++ hexEncode rest

/-- `writeBigUInt64BE`: 8 big-endian bytes of `t` (reduced mod `2 ^ 64`;
the evidence timestamp is an int64 millisecond count, always in range). -/
def be64 (t : Nat) : List Nat :=
  let m := t % 18446744073709551616
  [m / 72057594037927936 % 256, m / 281474976710656 % 256,
   m / 1099511627776 % 256, m / 4294967296 % 256,
   m / 16777216 % 256, m / 65536 % 256, m / 256 % 256, m % 256]

/-- UTF-8 encoding of a single character (code point). -/
def utf8Char (c : Char) : List Nat :=
  let n := c.toNat
  if n < 128 then [n]
  else if n < 2048 then [192 + n / 64, 128 + n % 64]
  else if n < 65536 then [224 + n / 4096, 128 + n / 64 % 64, 128 + n % 64]
  else [240 + n / 262144, 128 + n / 4096 % 64, 128 + n / 64 % 64, 128 + n % 64]

/-- UTF-8 encoding of a string (`update(canonical, "utf8")`). -/
def utf8Encode (s : String) : List Nat := s.data.flatMap utf8Char

/-! ## SHA-256

Executable SHA-256 over byte lists, used by `hash` (canonical.ts),
`Session.createReportData` and `AttestationVerifier.verifyOutputBinding`.
Words are `Nat`s kept `< 2 ^ 32` by explicit `% 2 ^ 32` masking. -/

/-- Word mask `2 ^ 32`. -/
def w32 : Nat := 4294967296

/-- Addition modulo `2 ^ 32`. -/
def add32 (a b : Nat) : Nat := (a + b) % w32

/-- Right rotation of a 32-bit word. -/
def rotr (n x : Nat) : Nat := x / 2 ^ n + x % 2 ^ n * 2 ^ (32 - n)

/-- Bitwise complement of a 32-bit word (input assumed `< 2 ^ 32`). -/
def not32 (x : Nat) : Nat := 4294967295 - x

/-- SHA-256 round constants. -/
def shaK : List Nat :=
  [1116352408, 1899447441, 3049323471, 3921009573, 961987163,
   1508970993, 2453635748, 2870763221, 3624381080, 310598401,
   607225278, 1426881987, 1925078388, 2162078206, 2614888103,
   3248222580, 3835390401, 4022224774, 264347078, 604807628,
   770255983, 1249150122, 1555081692, 1996064986, 2554220882,
   2821834349, 2952996808, 3210313671, 3336571891, 3584528711,
   113926993, 338241895, 666307205, 773529912, 1294757372,
   1396182291, 1695183700, 1986661051, 2177026350, 2456956037,
   2730485921, 2820302411, 3259730800, 3345764771, 3516065817,
   3600352804, 4094571909, 275423344, 430227734, 506948616,
   659060556, 883997877, 958139571, 1322822218, 1537002063,
   1747873779, 1955562222, 2024104815, 2227730452, 2361852424,
   2428436474, 2756734187, 3204031479, 3329325298]

/-- The eight working variables of the compression function. -/
structure ShaState where
  a : Nat
  b : Nat
  c : Nat
  d : Nat
  e : Nat
  f : Nat
  g : Nat
  h : Nat
deriving Repr, DecidableEq

/-- SHA-256 initial hash value. -/
def shaInit : ShaState :=
  ⟨1779033703, 3144134277, 1013904242, 2773480762,
   1359893119, 2600822924, 528734635, 1541459225⟩

/-- Group a byte list into big-endian 32-bit words. -/
def toWordsBE : List Nat → List Nat
  | b0 :: b1 :: b2 :: b3 :: rest =>
    (b0 * 16777216 + b1 * 65536 + b2 * 256 + b3) :: toWordsBE rest
  | _ => []

/-- Message-schedule extension: `acc` holds the words produced so far in
reverse order; `fuel` more words are appended. -/
def schedExtend : Nat → List Nat → List Nat
  | 0, acc => acc
  | fuel + 1, acc =>
    let w2 := acc.getD 1 0
    let w7 := acc.getD 6 0
    let w15 := acc.getD 14 0
    let w16 := acc.getD 15 0
    let s0 := (rotr 7 w15) ^^^ (rotr 18 w15) ^^^ (w15 / 2 ^ 3)
    let s1 := (rotr 17 w2) ^^^ (rotr 19 w2) ^^^ (w2 / 2 ^ 10)
    schedExtend fuel ((w16 + s0 + w7 + s1) % w32 :: acc)

/-- The 64-entry message schedule of one 16-word chunk. -/
def schedule (chunkWords : List Nat) : List Nat :=
  (schedExtend 48 chunkWords.reverse).reverse

/-- One round of the SHA-256 compression function. -/
def shaRound (st : ShaState) (kw : Nat × Nat) : ShaState :=
  let S1 := (rotr 6 st.e) ^^^ (rotr 11 st.e) ^^^ (rotr 25 st.e)
  let ch := (st.e &&& st.f) ^^^ (not32 st.e &&& st.g)
  let temp1 := (st.h + S1 + ch + kw.1 + kw.2) % w32
  let S0 := (rotr 2 st.a) ^^^ (rotr 13 st.a) ^^^ (rotr 22 st.a)
  let maj := (st.a &&& st.b) ^^^ (st.a &&& st.c) ^^^ (st.b &&& st.c)
  let temp2 := (S0 + maj) % w32
  ⟨(temp1 + temp2) % w32, st.a, st.b, st.c,
   (st.d + temp1) % w32, st.e, st.f, st.g⟩

/-- Compress one 64-byte chunk into the running hash state. -/
def compressChunk (h : ShaState) (chunk : List Nat) : ShaState :=
  let st := (List.zip shaK (schedule (toWordsBE chunk))).foldl shaRound h
  ⟨add32 h.a st.a, add32 h.b st.b, add32 h.c st.c, add32 h.d st.d,
   add32 h.e st.e, add32 h.f st.f, add32 h.g st.g, add32 h.h st.h⟩

/-- Split a list into 64-byte chunks (structural recursion on a fuel
bounded by the list length, so that it reduces definitionally). -/
def chunks64Go : Nat → List Nat → List (List Nat)
  | 0, _ => []
  | _, [] => []
  | fuel + 1, l => l.take 64 :: chunks64Go fuel (l.drop 64)

/-- Split a list into 64-byte chunks. -/
def chunks64 (l : List Nat) : List (List Nat) := chunks64Go l.length l

/-- SHA-256 padding: `0x80`, zeros to 56 mod 64, then the bit length
as a big-endian 64-bit integer. -/
def shaPad (msg : List Nat) : List Nat :=
  msg ++ [128] ++ List.replicate ((119 - msg.length % 64) % 64) 0
    ++ be64 (msg.length * 8)

/-- Big-endian bytes of one 32-bit word. -/
def wordBytes (wo : Nat) : List Nat :=
  [wo / 16777216 % 256, wo / 65536 % 256, wo / 256 % 256, wo % 256]

/-- SHA-256 of a byte list, as a 32-byte list. -/
def sha256 (msg : List Nat) : List Nat :=
  let fin := (chunks64 (shaPad msg)).foldl compressChunk shaInit
  wordBytes fin.a ++ wordBytes fin.b ++ wordBytes fin.c ++ wordBytes fin.d
    ++ wordBytes fin.e ++ wordBytes fin.f ++ wordBytes fin.g ++ wordBytes fin.h

/-! ## Code-point string comparison

JavaScript string comparison (`<`, and the default `Array.sort`
comparator) and `localeCompare` are modelled as code-point lexicographic
order, which is `String`'s order.  The library's decidability instance
for `String.lt` is iterator-based well-founded recursion that does not
reduce definitionally, so sorting uses this equivalent structural
boolean comparison instead. -/

/-- Lexicographic strict comparison of character lists. -/
def strLtB : List Char → List Char → Bool
  | [], [] => false
  | [], _ :: _ => true
  | _ :: _, [] => false
  | a :: as, b :: bs =>
    if a < b then true else if b < a then false else strLtB as bs

/-- `strLtB` decides lexicographic order. -/
theorem strLtB_iff_lex (a b : List Char) :
    strLtB a b = true ↔ List.Lex (· < ·) a b := by
  induction a generalizing b with
  | nil =>
    cases b with
    | nil =>
      simp only [strLtB]
      constructor
      · intro h; cases h
      · intro h; cases h
    | cons d ds =>
      simp only [strLtB]
      constructor
      · intro _; exact List.Lex.nil
      · intro _; trivial
  | cons c cs ih =>
    cases b with
    | nil =>
      simp only [strLtB]
      constructor
      · intro h; cases h
      · intro h; cases h
    | cons d ds =>
      by_cases h1 : c < d
      · simp only [strLtB, h1, if_pos]
        constructor
        · intro _; exact List.Lex.rel h1
        · intro _; trivial
      · by_cases h2 : d < c
        · simp only [strLtB, h1, if_neg, if_pos h2, ite_false]
          constructor
          · intro h; cases h
          · intro h
            cases h with
            | cons h => exact absurd h2 (lt_irrefl c)
            | rel h => exact absurd h h1
        · have hcd : c = d := le_antisymm (not_lt.mp h2) (not_lt.mp h1)
          subst hcd
          simp only [strLtB, lt_irrefl, ite_false, ih]
          constructor
          · intro h; exact List.Lex.cons h
          · intro h
            cases h with
            | cons h => exact h
            | rel h => exact absurd h (lt_irrefl c)

/-- `String.lt` through `strLtB`. -/
theorem string_lt_iff (s t : String) :
    s < t ↔ strLtB s.data t.data = true := by
  rw [String.lt_iff_toList_lt]
  show List.Lex (fun c d => c < d) s.toList t.toList ↔
    strLtB s.data t.data = true
  exact (strLtB_iff_lex s.data t.data).symm

/-- Non-strict comparison: `s ≤ t ↔ ¬ t < s`. -/
def strLeB (s t : String) : Bool := !(strLtB t.data s.data)

/-- `strLeB` decides `String`'s `≤`. -/
theorem string_le_iff (s t : String) :
    s ≤ t ↔ strLeB s t = true := by
  rw [← not_lt, string_lt_iff t s]
  simp [strLeB]

/-! ## JSON values

`JSON.stringify` with the `stableStringify` replacer is modelled as
building a JSON value, recursively sorting every object's keys
(`sortKeysRec`, the replacer) and rendering it without whitespace. -/

/-- A JSON value as produced by `normalizeTransformedContext`. -/
inductive Json where
  | null : Json
  | str : String → Json
  | num : ℚ → Json
  | arr : List Json → Json
  | obj : List (String × Json) → Json
deriving Repr

/-- Decimal string of a natural number (structural fuel recursion so it
reduces definitionally; `fuel ≥ digit count` always holds at `n + 1`). -/
def natStrGo : Nat → Nat → List Char
  | 0, _ => []
  | fuel + 1, n =>
    if n < 10 then [Char.ofNat (48 + n)]
    else natStrGo fuel (n / 10) ++ [Char.ofNat (48 + n % 10)]

/-- Decimal string of a natural number. -/
def natStr (n : Nat) : String := String.mk (natStrGo (n + 1) n)

/-- `JSON.stringify` rendering of a number that has been normalized to ten
decimal digits of precision: sign, integer part, and the fractional part
as at most ten digits with trailing zeros removed.  (Values reaching this
through `canonicalize` always have denominator dividing `10 ^ 10`; the
scientific notation JavaScript uses for magnitudes `≥ 1e21` or `< 1e-6`
is not modelled, nor are IEEE-754 non-finite values.) -/
def formatRat (q : ℚ) : String :=
  let a : ℚ := |q|
  let scaled : Nat := (a * 10000000000).floor.toNat
  let ip : Nat := scaled / 10000000000
  let fp : Nat := scaled % 10000000000
  let sign : String := if q < 0 ∧ scaled ≠ 0 then "-" else ""
  if fp = 0 then sign ++ natStr ip
  else
    let digits := natStrGo (fp + 1) fp
    let padded := List.replicate (10 - digits.length) '0' ++ digits
    sign ++ natStr ip ++ "." ++
      String.mk ((padded.reverse.dropWhile (· = '0')).reverse)

/-- Escape one character the way `JSON.stringify` escapes string
contents: `"` and `\` get a backslash, control characters below `0x20`
use the short escapes or `\u00XX`, and everything else (including the
space character) passes through unchanged. -/
def escapeChar (c : Char) : String :=
  if c = '"' then "\\\""
  else if c = '\\' then "\\\\"
  else if c = Char.ofNat 8 then "\\b"
  else if c = '\t' then "\\t"
  else if c = '\n' then "\\n"
  else if c = Char.ofNat 12 then "\\f"
  else if c = Char.ofNat 13 then "\\r"
  else if c.toNat < 32 then
    "\\u00" ++ String.mk [hexDigit (c.toNat / 16), hexDigit (c.toNat % 16)]
  else String.singleton c

/-- Concatenate a list of strings. -/
def strConcat : List String → String
  | [] => ""
  | s :: rest => s ++ strConcat rest

/-- `JSON.stringify` escaping of a whole string (without the quotes). -/
def jsonEscape (s : String) : String := strConcat (s.data.map escapeChar)

/-- Join rendered elements with commas, as `JSON.stringify` does. -/
def joinComma : List String → String
  | [] => ""
  | [s] => s
  | s :: rest => s ++ "," ++ joinComma rest

mutual

/-- Render a JSON value with no whitespace (`JSON.stringify`). -/
def render : Json → String
  | .null => "null"
  | .str s => "\"" ++ jsonEscape s ++ "\""
  | .num q => formatRat q
  | .arr items => "[" ++ joinComma (renderArr items) ++ "]"
  | .obj kvs => "\x7b" ++ joinComma (renderObj kvs) ++ "\x7d"

/-- Render the elements of a JSON array. -/
def renderArr : List Json → List String
  | [] => []
  | j :: rest => render j :: renderArr rest

/-- Render the `"key":value` entries of a JSON object. -/
def renderObj : List (String × Json) → List String
  | [] => []
  | (k, v) :: rest => ("\"" ++ jsonEscape k ++ "\":" ++ render v) :: renderObj rest

end

/-- Key order used when sorting object keys: `Object.keys(value).sort()`
compares strings, modelled as the code-point order on `String`. -/
def kvLE (a b : String × Json) : Prop := a.1 ≤ b.1

instance : DecidableRel kvLE := fun a b =>
  decidable_of_iff (strLeB a.1 b.1 = true) (string_le_iff a.1 b.1).symm

instance : IsTotal (String × Json) kvLE := ⟨fun a b => le_total a.1 b.1⟩

instance : IsTrans (String × Json) kvLE := ⟨fun _ _ _ hab hbc => le_trans hab hbc⟩

/-- Numeric value of a digit string (`ToUint32`-style reading used for
array-index keys; callers only apply it to all-digit strings). -/
def jsStrToNat (s : String) : Nat :=
  s.data.foldl (fun acc c => acc * 10 + (c.toNat - 48)) 0

/-- Is the string an ECMAScript array index: the canonical decimal form
of an integer `0 ≤ n < 2 ^ 32 - 1` (no leading zero except `"0"`
itself)?  Such property keys are enumerated before all other string
keys, in ascending numeric order (`OrdinaryOwnPropertyKeys`). -/
def isArrayIndex (s : String) : Bool :=
  match s.data with
  | [] => false
  | c :: rest =>
    ((49 ≤ c.toNat && c.toNat ≤ 57) || (c.toNat = 48 && rest.isEmpty))
      && rest.all (fun d => 48 ≤ d.toNat && d.toNat ≤ 57)
      && jsStrToNat s < 4294967295

/-- Ascending numeric order on array-index keys. -/
def numLE (a b : String × Json) : Prop := jsStrToNat a.1 ≤ jsStrToNat b.1

instance : DecidableRel numLE := fun a b =>
  inferInstanceAs (Decidable (jsStrToNat a.1 ≤ jsStrToNat b.1))

instance : IsTotal (String × Json) numLE :=
  ⟨fun a b => Nat.le_total (jsStrToNat a.1) (jsStrToNat b.1)⟩

instance : IsTrans (String × Json) numLE :=
  ⟨fun _ _ _ hab hbc => Nat.le_trans hab hbc⟩

/-- The order in which `JSON.stringify` serializes the object returned
by the `stableStringify` replacer.  The replacer inserts the keys in
lexicographic order (`Object.keys(value).sort()`), but JavaScript
objects enumerate their own properties with array-index keys first in
ascending numeric order and only the remaining string keys in insertion
order — so integer-like keys come first numerically, then the rest
lexicographically. -/
def jsKeyOrder (kvs : List (String × Json)) : List (String × Json) :=
  let sorted := List.insertionSort kvLE kvs
  List.insertionSort numLE (sorted.filter fun kv => isArrayIndex kv.1)
    ++ sorted.filter fun kv => !isArrayIndex kv.1

mutual

/-- The `stableStringify` replacer combined with `JSON.stringify`'s own
enumeration: every object's entries are rewritten recursively and
emitted in `jsKeyOrder` (arrays are kept in order, their elements
rewritten). -/
def sortKeysRec : Json → Json
  | .null => .null
  | .str s => .str s
  | .num q => .num q
  | .arr items => .arr (sortKeysArr items)
  | .obj kvs => .obj (jsKeyOrder (sortKeysObj kvs))

/-- `sortKeysRec` on the elements of an array. -/
def sortKeysArr : List Json → List Json
  | [] => []
  | j :: rest => sortKeysRec j :: sortKeysArr rest

/-- `sortKeysRec` on the values of an object (keys untouched here; the
enclosing object sorts them). -/
def sortKeysObj : List (String × Json) → List (String × Json)
  | [] => []
  | (k, v) :: rest => (k, sortKeysRec v) :: sortKeysObj rest

end

/-- Is a list of keys sorted (`a ≤ b` chainwise)? -/
def keysChainSorted : List String → Bool
  | [] => true
  | [_] => true
  | a :: b :: rest => strLeB a b && keysChainSorted (b :: rest)

mutual

/-- Every object in the value has its keys in sorted order. -/
def keysSorted : Json → Bool
  | .null => true
  | .str _ => true
  | .num _ => true
  | .arr items => keysSortedArr items
  | .obj kvs =>
    keysChainSorted (kvs.map (fun kv => kv.1)) && keysSortedObj kvs

/-- `keysSorted` for all elements of an array. -/
def keysSortedArr : List Json → Bool
  | [] => true
  | j :: rest => keysSorted j && keysSortedArr rest

/-- `keysSorted` for all values of an object. -/
def keysSortedObj : List (String × Json) → Bool
  | [] => true
  | (_, v) :: rest => keysSorted v && keysSortedObj rest

end

/-- `s` contains no occurrence of the character `c`. -/
def strNo (c : Char) (s : String) : Bool := s.data.all fun d => d != c

mutual

/-- Every string literal (object keys and string values) in the JSON
value is free of space characters. -/
def noSpaceStrs : Json → Bool
  | .null => true
  | .str s => strNo ' ' s
  | .num _ => true
  | .arr items => noSpaceStrsArr items
  | .obj kvs => noSpaceStrsObj kvs

/-- `noSpaceStrs` over array elements. -/
def noSpaceStrsArr : List Json → Bool
  | [] => true
  | j :: rest => noSpaceStrs j && noSpaceStrsArr rest

/-- `noSpaceStrs` over object entries (keys included). -/
def noSpaceStrsObj : List (String × Json) → Bool
  | [] => true
  | (k, v) :: rest => strNo ' ' k && noSpaceStrs v && noSpaceStrsObj rest

end

mutual

/-- No object key anywhere in the JSON value is an array-index string
(under which condition `jsKeyOrder` degenerates to the lexicographic
sort, so the emitted keys are lexicographically sorted). -/
def noIdxKeys : Json → Bool
  | .null => true
  | .str _ => true
  | .num _ => true
  | .arr items => noIdxKeysArr items
  | .obj kvs => noIdxKeysObj kvs

/-- `noIdxKeys` over array elements. -/
def noIdxKeysArr : List Json → Bool
  | [] => true
  | j :: rest => noIdxKeys j && noIdxKeysArr rest

/-- `noIdxKeys` over object entries. -/
def noIdxKeysObj : List (String × Json) → Bool
  | [] => true
  | (k, v) :: rest => !isArrayIndex k && noIdxKeys v && noIdxKeysObj rest

end

/-! ## Transformed context and canonical serializer (`src/core/canonical.ts`) -/

/-- An attribute value: `string | number`.  JavaScript numbers are
modelled as rationals. -/
inductive AttrVal where
  | str : String → AttrVal
  | num : ℚ → AttrVal
deriving DecidableEq, Repr

/-- An entity of a `TransformedContext`.  `attributes` is a
`Record<string, string | number>`, modelled as a key/value list in
insertion order. -/
structure Entity where
  syntheticId : String
  role : String
  attributes : List (String × AttrVal)
deriving DecidableEq, Repr

/-- A relation of a `TransformedContext` (`from` and `to` are Lean
keywords, so the fields are named `from_` and `to_`). -/
structure Relation where
  type : String
  from_ : String
  to_ : String
deriving DecidableEq, Repr

/-- The `TransformedContext` consumed by the serializer and verifier. -/
structure TransformedContext where
  entities : List Entity
  relations : List Relation
  task : String
  model : Option String := none
deriving DecidableEq, Repr

/-- `Math.round(value * 1e10) / 1e10` with `Math.round` rounding half
toward `+∞`.  The `-0` and non-finite branches of the source's
`normalizeNumber` have no rational counterpart. -/
def normalizeNumber (q : ℚ) : ℚ :=
  ((q * 10000000000 + 1 / 2).floor : ℚ) / 10000000000

/-- Attribute order used by `normalizeAttributes` (`Object.keys(..).sort()`). -/
def attrLE (a b : String × AttrVal) : Prop := a.1 ≤ b.1

instance : DecidableRel attrLE := fun a b =>
  decidable_of_iff (strLeB a.1 b.1 = true) (string_le_iff a.1 b.1).symm

instance : IsTotal (String × AttrVal) attrLE := ⟨fun a b => le_total a.1 b.1⟩

instance : IsTrans (String × AttrVal) attrLE := ⟨fun _ _ _ hab hbc => le_trans hab hbc⟩

/-- Sort attributes by key and normalize numeric values.  JavaScript's
`Array.sort`/key iteration is modelled by a stable insertion sort. -/
def normalizeAttributes (attrs : List (String × AttrVal)) : List (String × AttrVal) :=
  (List.insertionSort attrLE attrs).map fun kv =>
    match kv.2 with
    | .num v => (kv.1, .num (normalizeNumber v))
    | .str s => (kv.1, .str s)

/-- An attribute value as a JSON leaf. -/
def attrValToJson : AttrVal → Json
  | .str s => .str s
  | .num q => .num q

/-- Entity order: `a.syntheticId.localeCompare(b.syntheticId)`, with
`localeCompare` modelled as code-point comparison. -/
def entLE (a b : Entity) : Prop := a.syntheticId ≤ b.syntheticId

instance : DecidableRel entLE := fun a b =>
  decidable_of_iff (strLeB a.syntheticId b.syntheticId = true)
    (string_le_iff a.syntheticId b.syntheticId).symm

instance : IsTotal Entity entLE := ⟨fun a b => le_total a.syntheticId b.syntheticId⟩

instance : IsTrans Entity entLE := ⟨fun _ _ _ hab hbc => le_trans hab hbc⟩

/-- `normalizeEntities`: sort by `syntheticId`, then rebuild each entity
with keys `attributes`, `role`, `syntheticId`. -/
def normalizeEntities (entities : List Entity) : List Json :=
  (List.insertionSort entLE entities).map fun e =>
    .obj [("attributes",
            .obj ((normalizeAttributes e.attributes).map fun kv =>
              (kv.1, attrValToJson kv.2))),
          ("role", .str e.role),
          ("syntheticId", .str e.syntheticId)]

/-- The `(from, to, type)` sort key of a relation, lexicographically. -/
def relKey (r : Relation) : Lex (String × Lex (String × String)) :=
  toLex (r.from_, toLex (r.to_, r.type))

/-- Relation order: by `from`, then `to`, then `type` (source comparator
chain of `localeCompare`s, modelled as code-point comparison). -/
def relLE (a b : Relation) : Prop := relKey a ≤ relKey b

/-- Boolean form of the relation comparator chain. -/
def relLeB (a b : Relation) : Bool :=
  if strLtB a.from_.data b.from_.data then true
  else if strLtB b.from_.data a.from_.data then false
  else if strLtB a.to_.data b.to_.data then true
  else if strLtB b.to_.data a.to_.data then false
  else strLeB a.type b.type

/-- Boolean-to-proposition bridge used below: a `strLtB` comparison
that fails. -/
theorem strLtB_eq_false_of_not_lt {s t : String} (h : ¬ s < t) :
    strLtB s.data t.data = false :=
  Bool.eq_false_iff.mpr fun hc => h ((string_lt_iff s t).mpr hc)

/-- `relLeB` decides `relLE`. -/
theorem relLeB_iff (a b : Relation) : relLeB a b = true ↔ relLE a b := by
  have key : relLE a b ↔ (a.from_ < b.from_ ∨ (a.from_ = b.from_ ∧
      (a.to_ < b.to_ ∨ (a.to_ = b.to_ ∧ a.type ≤ b.type)))) := by
    unfold relLE relKey
    rw [Prod.Lex.le_iff, Prod.Lex.le_iff]
  rw [key]
  unfold relLeB
  rcases lt_trichotomy a.from_ b.from_ with h1 | h1 | h1
  · simp [(string_lt_iff _ _).mp h1, h1]
  · have hb1 : strLtB a.from_.data b.from_.data = false :=
      strLtB_eq_false_of_not_lt (by rw [h1]; exact lt_irrefl _)
    have hb2 : strLtB b.from_.data a.from_.data = false :=
      strLtB_eq_false_of_not_lt (by rw [h1]; exact lt_irrefl _)
    rw [hb1, hb2]
    simp only [Bool.false_eq_true, if_false]
    rcases lt_trichotomy a.to_ b.to_ with h3 | h3 | h3
    · simp [(string_lt_iff _ _).mp h3, h1, h3]
    · have hb3 : strLtB a.to_.data b.to_.data = false :=
        strLtB_eq_false_of_not_lt (by rw [h3]; exact lt_irrefl _)
      have hb4 : strLtB b.to_.data a.to_.data = false :=
        strLtB_eq_false_of_not_lt (by rw [h3]; exact lt_irrefl _)
      rw [hb3, hb4]
      simp only [Bool.false_eq_true, if_false, h1, h3, lt_self_iff_false,
        false_or, true_and]
      exact (string_le_iff _ _).symm
    · have hb3 : strLtB a.to_.data b.to_.data = false :=
        strLtB_eq_false_of_not_lt (lt_asymm h3)
      simp [hb3, (string_lt_iff _ _).mp h3, h1, lt_self_iff_false,
        lt_asymm h3, ne_of_gt h3]
  · have hb1 : strLtB a.from_.data b.from_.data = false :=
      strLtB_eq_false_of_not_lt (lt_asymm h1)
    simp [hb1, (string_lt_iff _ _).mp h1, lt_asymm h1, ne_of_gt h1]

instance : DecidableRel relLE := fun a b =>
  decidable_of_iff (relLeB a b = true) (relLeB_iff a b)

instance : IsTotal Relation relLE := ⟨fun a b => le_total (relKey a) (relKey b)⟩

instance : IsTrans Relation relLE := ⟨fun _ _ _ hab hbc => le_trans hab hbc⟩

/-- `normalizeRelations`: sort by `(from, to, type)`, then rebuild each
relation with keys `from`, `to`, `type`. -/
def normalizeRelations (relations : List Relation) : List Json :=
  (List.insertionSort relLE relations).map fun r =>
    .obj [("from", .str r.from_), ("to", .str r.to_), ("type", .str r.type)]

/-- `normalizeTransformedContext`: the normalized top-level object with
keys `entities`, `model` (`context.model ?? null`), `relations`, `task`. -/
def normalizeTransformedContext (context : TransformedContext) : Json :=
  .obj [("entities", .arr (normalizeEntities context.entities)),
        ("model", match context.model with
                  | some m => .str m
                  | none => .null),
        ("relations", .arr (normalizeRelations context.relations)),
        ("task", .str context.task)]

/-- `canonicalize`: normalize, then `JSON.stringify` with the
key-sorting replacer. -/
def canonicalize (context : TransformedContext) : String :=
  render (sortKeysRec (normalizeTransformedContext context))

/-- `hash` in `src/core/canonical.ts` (imported as `hashContext` by the
verifier): hex-encoded SHA-256 of the UTF-8 canonical form. -/
def hashContext (context : TransformedContext) : String :=
  hexEncode (sha256 (utf8Encode (canonicalize context)))

/-- Every string field of the context (task, model, entity ids, roles,
attribute keys, string attribute values, relation fields) is free of
space characters. -/
def ctxSpaceFree (context : TransformedContext) : Bool :=
  strNo ' ' context.task &&
  (match context.model with
   | some m => strNo ' ' m
   | none => true) &&
  context.entities.all (fun e => strNo ' ' e.syntheticId && strNo ' ' e.role &&
    e.attributes.all fun kv => strNo ' ' kv.1 &&
      (match kv.2 with
       | .str s2 => strNo ' ' s2
       | .num _ => true)) &&
  context.relations.all fun r =>
    strNo ' ' r.from_ && strNo ' ' r.to_ && strNo ' ' r.type

/-- No attribute key of any entity is an array-index string.  (All
other keys of the canonical form — `entities`, `model`, `relations`,
`task`, `attributes`, `role`, `syntheticId`, `from`, `to`, `type` — are
fixed non-numeric strings.) -/
def ctxNoIndexKeys (context : TransformedContext) : Bool :=
  context.entities.all fun e => e.attributes.all fun kv => !isArrayIndex kv.1

/-! ## Attestation report parser (`parseAttestationReport` and friends) -/

/-- The platform version sub-fields of a parsed report. -/
structure PlatformVersion where
  bootLoader : Nat
  tee : Nat
  snp : Nat
  microcode : Nat
deriving DecidableEq, Repr

/-- `ParsedAttestationReport` (src/attestation/types.ts). -/
structure ParsedAttestationReport where
  version : Nat
  guestPolicy : Nat
  measurement : String
  hostData : List Nat
  reportData : List Nat
  platformVersion : PlatformVersion
  signature : List Nat
  certificates : Option (List (List Nat))
deriving DecidableEq, Repr

/-- `slice(a, b)` on a byte buffer. -/
def slice (l : List Nat) (a b : Nat) : List Nat := (l.drop a).take (b - a)

/-- Little-endian 32-bit read at `off` (`DataView.getUint32(off, true)`;
callers have already checked the buffer is long enough). -/
def readU32LE (l : List Nat) (off : Nat) : Nat :=
  l.getD off 0 + l.getD (off + 1) 0 * 256 + l.getD (off + 2) 0 * 65536
    + l.getD (off + 3) 0 * 16777216

/-- Little-endian 64-bit read at `off` (`Number(getBigUint64(off, true))`). -/
def readU64LE (l : List Nat) (off : Nat) : Nat :=
  readU32LE l off + readU32LE l (off + 4) * 4294967296

/-- The 4-byte magic marker `"FAKE"` of simulator reports. -/
def fakeMagic : List Nat := [70, 65, 75, 69]

/-- `isSimulatorReport`: sniff the magic marker.  `TextDecoder().decode`
of the first four bytes equals `"FAKE"` exactly when the bytes are the
ASCII codes of `FAKE`. -/
def isSimulatorReport (report : List Nat) : Bool :=
  report.length ≥ 4 && report.take 4 == fakeMagic

/-- `parseSimulatorReport`: layout `"FAKE" | u32 LE version | 32-byte
binding digest`, padded to the real report size. -/
def parseSimulatorReport (report : List Nat) :
    Except String ParsedAttestationReport :=
  if report.length < 1184 then .error "Invalid simulator report: too small"
  else .ok
    { version := readU32LE report 4
      guestPolicy := 0
      measurement := "simulator_measurement_" ++ String.mk (List.replicate 42 '0')
      hostData := List.replicate 32 0
      reportData := slice report 8 40
      platformVersion := ⟨0, 0, 0, 0⟩
      signature := List.replicate 64 0
      certificates := none }

/-- `parseRealSEVSNPReport`: the fixed 1184-byte AMD SEV-SNP layout. -/
def parseRealSEVSNPReport (report : List Nat) :
    Except String ParsedAttestationReport :=
  if report.length < 1184 then .error "Invalid SEV-SNP report: incorrect size"
  else .ok
    { version := readU32LE report 0
      guestPolicy := readU64LE report 4
      measurement := hexEncode (slice report 48 96)
      hostData := slice report 96 128
      reportData := slice report 640 704
      platformVersion :=
        ⟨report.getD 24 0, report.getD 25 0, report.getD 26 0, report.getD 27 0⟩
      signature := slice report 704 768
      certificates := none }

/-- `parseAttestationReport`: dispatch on the magic marker; exceptions
are modelled as `Except.error`. -/
def parseAttestationReport (report : List Nat) :
    Except String ParsedAttestationReport :=
  if report.take 4 == fakeMagic then parseSimulatorReport report
  else parseRealSEVSNPReport report

/-- `extractReportData`: `parse` then project the report data field. -/
def extractReportData (report : List Nat) : Except String (List Nat) :=
  (parseAttestationReport report).map (·.reportData)

/-- `validateReportStructure`: `parse` wrapped into a boolean. -/
def validateReportStructure (report : List Nat) : Bool :=
  (parseAttestationReport report).toOption.isSome

/-! ## Attestation verifier (`src/attestation/verifier.ts`) -/

/-- `AttestationEvidence` (src/attestation/types.ts).  Hex-string fields
stay strings, as in the source; `report` and `signature` are byte
buffers; `timestamp` is milliseconds since the epoch. -/
structure AttestationEvidence where
  platform : String := "sev-snp"
  report : List Nat
  measurement : String
  configHash : String
  sessionId : String
  outputHash : String
  timestamp : Nat
  signature : Option (List Nat) := none
  version : String := "1.0"
deriving DecidableEq, Repr

/-- Verification mode. -/
inductive VerifyMode where
  | strict
  | permissive
deriving DecidableEq, Repr

/-- `VerificationOptions`; absent optional fields are `none`. -/
structure VerificationOptions where
  expectedMeasurement : Option String := none
  expectedConfigHash : Option String := none
  maxAge : Option Nat := none
  validateSignatureChain : Option Bool := none
  mode : Option VerifyMode := none
  nonce : Option String := none
deriving DecidableEq, Repr

/-- The six boolean claims of a verdict. -/
structure VerdictClaims where
  codeIdentity : Bool
  platformAuth : Bool
  sessionBinding : Bool
  freshness : Bool
  reportStructure : Bool
  configBinding : Bool
deriving DecidableEq, Repr

/-- `VerificationVerdict`. -/
structure VerificationVerdict where
  valid : Bool
  platform : String
  measurement : String
  claims : VerdictClaims
  errors : List String
  warnings : List String
  verifiedAt : Nat
deriving DecidableEq, Repr

/-- JavaScript truthiness of an optional string: `undefined` and the
empty string are falsy (`if (options.expectedMeasurement)`). -/
def isTruthyStr : Option String → Bool
  | none => false
  | some s => s ≠ ""

/-- Result of `verifyPlatformSignature` / `verifyOutputBinding`:
`{ valid: boolean; error?: string }`. -/
structure CheckResult where
  valid : Bool
  error : Option String := none
deriving DecidableEq, Repr

/-- `AttestationVerifier.verifyPlatformSignature`: simulator reports
never pass; real reports pass when they parse and carry a non-empty
signature field (certificate-chain validation is unimplemented in the
source). -/
def verifyPlatformSignature (report : List Nat) : CheckResult :=
  if isSimulatorReport report then
    ⟨false, some "Simulator report (no real signature chain)"⟩
  else
    match parseAttestationReport report with
    | .ok parsed =>
      if parsed.signature.length = 0 then ⟨false, some "Missing signature"⟩
      else ⟨true, none⟩
    | .error e => ⟨false, some e⟩

/-- `AttestationVerifier.verifyOutputBinding`: recompute the context
hash, compare with `evidence.outputHash`, then compare
`SHA256(sessionId ‖ configHash ‖ outputHash ‖ timestamp_be64)` with the
first 32 bytes of the report's report-data field. -/
def verifyOutputBinding (evidence : AttestationEvidence)
    (transformedContext : TransformedContext) : CheckResult :=
  let actualOutputHash := hashContext transformedContext
  if actualOutputHash ≠ evidence.outputHash then
    ⟨false, some ("Output hash mismatch: evidence claims " ++ evidence.outputHash
      ++ ", actual is " ++ actualOutputHash)⟩
  else
    match extractReportData evidence.report with
    | .error e => ⟨false, some e⟩
    | .ok reportData =>
      let expectedHash := sha256 (hexDecode evidence.sessionId
        ++ hexDecode evidence.configHash ++ hexDecode evidence.outputHash
        ++ be64 evidence.timestamp)
      let reportDataHash := reportData.take 32
      if expectedHash ≠ reportDataHash then
        ⟨false, some "Report data does not match expected binding"⟩
      else ⟨true, none⟩

/-- Step 1 of `verify`: report structure.  Returns the claim bit and the
errors contributed. -/
def structureCheck (evidence : AttestationEvidence) : Bool × List String :=
  match parseAttestationReport evidence.report with
  | .ok _ => (true, [])
  | .error e => (false, ["Report structure invalid: " ++ e])

/-- Step 2 of `verify`: code identity (claim bit, errors, warnings). -/
def codeIdentityCheck (evidence : AttestationEvidence)
    (options : VerificationOptions) (mode : VerifyMode) :
    Bool × List String × List String :=
  match options.expectedMeasurement with
  | some m =>
    if m ≠ "" then
      if evidence.measurement = m then (true, [], [])
      else (false, ["Measurement mismatch: expected " ++ m ++ ", got "
        ++ evidence.measurement], [])
    else noMeasurementBranch evidence mode
  | none => noMeasurementBranch evidence mode
where
  /-- The `else` branch taken when no (truthy) expected measurement was
  supplied. -/
  noMeasurementBranch (_ : AttestationEvidence) (mode : VerifyMode) :
      Bool × List String × List String :=
    match mode with
    | .strict => (false, ["Expected measurement not provided for verification"], [])
    | .permissive => (true, [], ["Code identity not verified (no expected measurement)"])

/-- Step 3 of `verify`: platform authentication (claim bit, errors,
warnings). -/
def platformAuthCheck (evidence : AttestationEvidence)
    (options : VerificationOptions) (mode : VerifyMode) :
    Bool × List String × List String :=
  if options.validateSignatureChain ≠ some false then
    let r := verifyPlatformSignature evidence.report
    if r.valid then (true, [], [])
    else if isSimulatorReport evidence.report then
      (if mode = .permissive then true else false,
       [], ["Simulator report detected - no real platform authentication"])
    else
      (false, ["Platform authentication failed: " ++ r.error.getD "undefined"], [])
  else (true, [], [])

/-- Step 5 of `verify`: config binding. -/
def configBindingCheck (evidence : AttestationEvidence)
    (options : VerificationOptions) : Bool × List String :=
  match options.expectedConfigHash with
  | some c =>
    if c ≠ "" then
      if evidence.configHash = c then (true, [])
      else (false, ["Config hash mismatch: expected " ++ c ++ ", got "
        ++ evidence.configHash])
    else (true, [])
  | none => (true, [])

/-- Step 6 of `verify`: freshness.  `age = now - timestamp` may be
negative, hence the integer arithmetic. -/
def freshnessCheck (evidence : AttestationEvidence)
    (options : VerificationOptions) (now : Nat) : Bool × List String :=
  let maxAge : Nat := options.maxAge.getD 300000
  let age : Int := (now : Int) - (evidence.timestamp : Int)
  if age ≤ (maxAge : Int) ∧ 0 ≤ age then (true, [])
  else if age < 0 then (false, ["Attestation timestamp is in the future"])
  else
    (false, ["Attestation too old: " ++ natStr (age.toNat / 1000) ++ "s (max: "
      ++ natStr (maxAge / 1000) ++ "s)"])

/-- `AttestationVerifier.verify`.  `Date.now()` is passed in as `now`;
each numbered step mirrors one block of the source, and the error and
warning lists are concatenated in the order the source pushes them. -/
def verify (evidence : AttestationEvidence)
    (transformedContext : TransformedContext)
    (options : VerificationOptions) (now : Nat) : VerificationVerdict :=
  let mode := options.mode.getD .strict
  let s1 := structureCheck evidence
  let s2 := codeIdentityCheck evidence options mode
  let s3 := platformAuthCheck evidence options mode
  let s4 := verifyOutputBinding evidence transformedContext
  let s4errs : List String :=
    if s4.valid then []
    else ["Output binding verification failed: " ++ s4.error.getD "undefined"]
  let s5 := configBindingCheck evidence options
  let s6 := freshnessCheck evidence options now
  let s7warns : List String :=
    if isTruthyStr options.nonce then ["Nonce verification not yet implemented"]
    else []
  let claims : VerdictClaims :=
    { codeIdentity := s2.1
      platformAuth := s3.1
      sessionBinding := s4.valid
      freshness := s6.1
      reportStructure := s1.1
      configBinding := s5.1 }
  let errors := s1.2 ++ s2.2.1 ++ s3.2.1 ++ s4errs ++ s5.2 ++ s6.2
  let warnings := s2.2.2 ++ s3.2.2 ++ s7warns
  let allClaimsValid := claims.codeIdentity && claims.platformAuth
    && claims.sessionBinding && claims.freshness && claims.reportStructure
    && claims.configBinding
  { valid := allClaimsValid && errors.isEmpty
    platform := evidence.platform
    measurement := evidence.measurement
    claims := claims
    errors := errors
    warnings := warnings
    verifiedAt := now }

/-! ## Session binder (`src/runtime/session.ts`)

`Session.create` draws `sessionId`/`nonce` from a cryptographically
secure random source and stamps `Date.now()`; randomness is outside the
embedding, so theorems quantify over arbitrary session states instead.
Mutation is explicit state passing: a mutator returns the new state in
`Except.ok`, and a thrown exception (`Except.error`) leaves the caller's
session untouched. -/

/-- The mutable state of a `Session` object. -/
structure Session where
  sessionId : String
  configHash : String
  nonce : String
  createdAt : Nat
  securityTier : String
  enclaveUsed : Bool := false
  platform : Option String := none
  outputHash : Option String := none
  finalized : Bool := false
deriving DecidableEq, Repr

/-- `SessionMetadata` as returned by `finalize`/`getMetadata`. -/
structure SessionMetadata where
  sessionId : String
  configHash : String
  createdAt : Nat
  securityTier : String
  enclaveUsed : Bool
  platform : Option String
deriving DecidableEq, Repr

/-- Does a string match `/^[0-9a-f]{64}$/i`? -/
def isHex64 (s : String) : Bool :=
  s.length = 64 && s.data.all (fun c => (hexVal c).isSome)

/-- `Session.setEnclaveUsed`. -/
def Session.setEnclaveUsed (s : Session) (platform : String) :
    Except String Session :=
  if s.finalized then .error "Cannot modify finalized session"
  else .ok { s with enclaveUsed := true, platform := some platform }

/-- `Session.setOutputHash`. -/
def Session.setOutputHash (s : Session) (hash : String) :
    Except String Session :=
  if s.finalized then .error "Cannot modify finalized session"
  else if ¬ isHex64 hash then
    .error "Invalid output hash format (expected 64 hex characters)"
  else .ok { s with outputHash := some hash }

/-- `Session.finalize`: returns the metadata and the locked state. -/
def Session.finalize (s : Session) :
    Except String (SessionMetadata × Session) :=
  if s.finalized then .error "Session already finalized"
  else .ok
    (⟨s.sessionId, s.configHash, s.createdAt, s.securityTier,
      s.enclaveUsed, s.platform⟩,
     { s with finalized := true })

/-- `Session.createBindingData`:
`sessionId ‖ configHash ‖ outputHash` as bytes.  `if (!this.outputHash)`
is JavaScript truthiness, so an empty stored hash also throws. -/
def Session.createBindingData (s : Session) : Except String (List Nat) :=
  match s.outputHash with
  | none => .error "Output hash not set - cannot create binding data"
  | some oh =>
    if oh = "" then .error "Output hash not set - cannot create binding data"
    else .ok (hexDecode s.sessionId ++ hexDecode s.configHash ++ hexDecode oh)

/-- `Session.createReportData`:
`SHA256(bindingData ‖ createdAt_be64)`. -/
def Session.createReportData (s : Session) : Except String (List Nat) :=
  (s.createBindingData).map fun bd => sha256 (bd ++ be64 s.createdAt)

/-- `Session.verifyBinding`: temporarily substitute the candidate
output hash, recompute the report data, compare byte-for-byte, and
restore the original hash in a `finally` block (so the state returned in
the second component is what the caller's object holds afterward, even
when `createReportData` throws). -/
def Session.verifyBinding (s : Session) (reportData : List Nat)
    (outputHash : String) : Except String Bool × Session :=
  let temp : Session := { s with outputHash := some outputHash }
  let result : Except String Bool :=
    match temp.createReportData with
    | .ok expected => .ok (reportData == expected)
    | .error e => .error e
  (result, { temp with outputHash := s.outputHash })

/-- One call against a session: the three mutators of the lifecycle. -/
inductive SessionOp where
  | setOutputHash (h : String)
  | setEnclaveUsed (p : String)
  | finalize
deriving DecidableEq, Repr

/-- Apply a mutator to a session state. -/
def applySessionOp (s : Session) (op : SessionOp) : Except String Session :=
  match op with
  | .setOutputHash h => s.setOutputHash h
  | .setEnclaveUsed p => s.setEnclaveUsed p
  | .finalize => (s.finalize).map (·.2)

/-- The state a caller's session object holds after attempting a
mutator: the new state on success, the old one when the call threw. -/
def trySessionOp (s : Session) (op : SessionOp) : Session :=
  match applySessionOp s op with
  | .ok s' => s'
  | .error _ => s

/-! ## Concrete fixtures used by witnesses and counterexamples -/

/-- A finalized session. -/
def sessionFin : Session :=
  { sessionId := "00112233445566778899aabbccddeeff"
    configHash := "6a180f1e9a76fcd8ae6f45f26ad06bde042a5ad22cfa2c92af02f6d028b95e9e"
    nonce := "n", createdAt := 1000, securityTier := "attested"
    outputHash := some "f7f202fefeb81fdecf6dbcc9cca7d2f5dc462ef768f3c6ce21a2be3d9db22119"
    finalized := true }

/-- A fresh, non-finalized session. -/
def sessionOpen : Session :=
  { sessionId := "00112233445566778899aabbccddeeff"
    configHash := "6a180f1e9a76fcd8ae6f45f26ad06bde042a5ad22cfa2c92af02f6d028b95e9e"
    nonce := "n", createdAt := 1000, securityTier := "attested" }

/-- A 64-hex-character string. -/
def hexA : String :=
  "aaaaaaaaaaaaaaaaaaaaaaaaaaaaaaaaaaaaaaaaaaaaaaaaaaaaaaaaaaaaaaaa"

/-- Another 64-hex-character string. -/
def hexB : String :=
  "bbbbbbbbbbbbbbbbbbbbbbbbbbbbbbbbbbbbbbbbbbbbbbbbbbbbbbbbbbbbbbbb"

/-! ## C5: a finalized session is locked -/

/-- C5: once `finalize()` has run (`s.finalized = true`), every mutator
(`setOutputHash`, `setEnclaveUsed`, a second `finalize`) throws, and the
session object the caller holds afterward — `trySessionOp`, which keeps
the old state when the call threw — is unchanged, so `sessionId`,
`configHash`, `createdAt` and the stored `outputHash` never change after
finalization. -/
theorem finalized_session_locked (s : Session) (h p : String) (op : SessionOp)
    (hf : s.finalized = true) :
    (s.setOutputHash h).isOk = false ∧
    (s.setEnclaveUsed p).isOk = false ∧
    (s.finalize).isOk = false ∧
    trySessionOp s op = s ∧
    (trySessionOp s op).sessionId = s.sessionId ∧
    (trySessionOp s op).configHash = s.configHash ∧
    (trySessionOp s op).createdAt = s.createdAt ∧
    (trySessionOp s op).outputHash = s.outputHash := by
  have hlock : trySessionOp s op = s := by
    cases op <;>
      simp [trySessionOp, applySessionOp, Session.setOutputHash,
        Session.setEnclaveUsed, Session.finalize, hf, Except.map]
  refine ⟨?_, ?_, ?_, hlock, by rw [hlock], by rw [hlock], by rw [hlock],
    by rw [hlock]⟩ <;>
    simp [Session.setOutputHash, Session.setEnclaveUsed, Session.finalize,
      hf, Except.isOk, Except.toBool]

/-- Witness for C5 at a concrete finalized session. -/
theorem finalized_session_locked_witness :
    sessionFin.finalized = true ∧
    ((sessionFin.setOutputHash hexA).isOk = false ∧
     (sessionFin.setEnclaveUsed "sev-snp").isOk = false ∧
     (sessionFin.finalize).isOk = false ∧
     trySessionOp sessionFin .finalize = sessionFin ∧
     (trySessionOp sessionFin .finalize).sessionId = sessionFin.sessionId ∧
     (trySessionOp sessionFin .finalize).configHash = sessionFin.configHash ∧
     (trySessionOp sessionFin .finalize).createdAt = sessionFin.createdAt ∧
     (trySessionOp sessionFin .finalize).outputHash = sessionFin.outputHash) :=
  ⟨rfl, finalized_session_locked sessionFin hexA "sev-snp" .finalize rfl⟩

/-! ## C6: `setOutputHash` on a non-finalized session -/

/-- C6 as amended: on a non-finalized session, `setOutputHash h`
succeeds exactly when `h` is a 64-hex-character string (either case, per
the `/^[0-9a-f]{64}$/i` regex), storing `h`, and fails with the
configuration-shape error otherwise.  (The once-only part of the
original claim is refuted by `setOutputHash_twice_succeeds`: the source
has no already-set guard, so a second call before finalization succeeds
and overwrites.) -/
theorem setOutputHash_spec (s : Session) (h : String)
    (hnf : s.finalized = false) :
    ((s.setOutputHash h).isOk = true ↔ isHex64 h = true) ∧
    (isHex64 h = true →
      s.setOutputHash h = .ok { s with outputHash := some h }) ∧
    (isHex64 h = false →
      s.setOutputHash h =
        .error "Invalid output hash format (expected 64 hex characters)") := by
  by_cases hh : isHex64 h <;>
    simp [Session.setOutputHash, hnf, hh, Except.isOk, Except.toBool]

/-- Witness for C6's amended theorem at a concrete session and hash. -/
theorem setOutputHash_spec_witness :
    sessionOpen.finalized = false ∧
    (((sessionOpen.setOutputHash hexA).isOk = true ↔ isHex64 hexA = true) ∧
     (isHex64 hexA = true →
       sessionOpen.setOutputHash hexA =
         .ok { sessionOpen with outputHash := some hexA }) ∧
     (isHex64 hexA = false →
       sessionOpen.setOutputHash hexA =
         .error "Invalid output hash format (expected 64 hex characters)")) :=
  ⟨rfl, setOutputHash_spec sessionOpen hexA rfl⟩

/-- Counterexample to C6 as stated: two successive `setOutputHash` calls
on a non-finalized session both succeed — the second call does not fail,
it overwrites the stored hash. -/
theorem setOutputHash_twice_succeeds :
    (sessionOpen.setOutputHash hexA).bind (fun s' => s'.setOutputHash hexB)
      = .ok { sessionOpen with outputHash := some hexB } := rfl

/-! ## C7: `verifyBinding` is a pure comparison -/

/-- C7 as amended: for every non-empty candidate hash, `verifyBinding`
returns whether `reportData` equals
`SHA256(sessionId ‖ configHash ‖ candidate ‖ createdAt_be64)` byte for
byte, and the session state the caller holds afterward is exactly the
state from before the call — the temporary substitution of the candidate
is never observable.  (For the empty-string candidate the source throws
instead of returning a boolean — see `verifyBinding_empty_throws` — but
even then the state is restored.) -/
theorem verifyBinding_pure (s : Session) (rd : List Nat) (oh : String)
    (hne : oh ≠ "") :
    (s.verifyBinding rd oh).1 =
      .ok (rd == sha256 (hexDecode s.sessionId ++ hexDecode s.configHash
        ++ hexDecode oh ++ be64 s.createdAt)) ∧
    (s.verifyBinding rd oh).2 = s := by
  constructor
  · simp [Session.verifyBinding, Session.createReportData,
      Session.createBindingData, hne, Except.map, List.append_assoc]
  · simp [Session.verifyBinding]

/-- Witness for C7's amended theorem at a concrete session. -/
theorem verifyBinding_pure_witness :
    hexA ≠ "" ∧
    ((sessionOpen.verifyBinding [] hexA).1 =
      .ok (([] : List Nat) == sha256 (hexDecode sessionOpen.sessionId
        ++ hexDecode sessionOpen.configHash ++ hexDecode hexA
        ++ be64 sessionOpen.createdAt)) ∧
     (sessionOpen.verifyBinding [] hexA).2 = sessionOpen) :=
  ⟨by decide, verifyBinding_pure sessionOpen [] hexA (by decide)⟩

/-- Counterexample to C7 as stated: with candidate `""` (falsy in
JavaScript), `verifyBinding` propagates the `createBindingData`
exception instead of returning the comparison result. -/
theorem verifyBinding_empty_throws :
    (sessionOpen.verifyBinding [] "").1 ≠
      .ok (([] : List Nat) == sha256 (hexDecode sessionOpen.sessionId
        ++ hexDecode sessionOpen.configHash ++ hexDecode ""
        ++ be64 sessionOpen.createdAt)) := by
  have h : (sessionOpen.verifyBinding [] "").1 =
      .error "Output hash not set - cannot create binding data" := rfl
  rw [h]
  simp

/-! ## C2: the overall verdict aggregation -/

/-- C2: for every evidence, context, options and clock value, the
verdict returned by `verify` has `valid = true` exactly when all six
claims are `true` and the `errors` array is empty; in particular
`valid = true` implies every claim holds and `errors = []`. -/
theorem verify_valid_iff (evidence : AttestationEvidence)
    (transformedContext : TransformedContext)
    (options : VerificationOptions) (now : Nat) :
    (verify evidence transformedContext options now).valid = true ↔
      ((verify evidence transformedContext options now).claims.codeIdentity = true ∧
       (verify evidence transformedContext options now).claims.platformAuth = true ∧
       (verify evidence transformedContext options now).claims.sessionBinding = true ∧
       (verify evidence transformedContext options now).claims.freshness = true ∧
       (verify evidence transformedContext options now).claims.reportStructure = true ∧
       (verify evidence transformedContext options now).claims.configBinding = true ∧
       (verify evidence transformedContext options now).errors = []) := by
  simp only [verify, Bool.and_eq_true, List.isEmpty_iff]
  tauto

/-! ## C4: undersized report buffers -/

/-- C4: every buffer shorter than the fixed 1184-byte report size fails
to parse, in the simulator layout, in the real SEV-SNP layout, and hence
in `parseAttestationReport`; and `verify` surfaces the failure as
`claims.reportStructure = false` with an error entry in the verdict
rather than throwing. -/
theorem undersized_report_fails (b : List Nat)
    (evidence : AttestationEvidence)
    (transformedContext : TransformedContext)
    (options : VerificationOptions) (now : Nat)
    (hb : b.length < 1184) (hev : evidence.report.length < 1184) :
    (parseSimulatorReport b).isOk = false ∧
    (parseRealSEVSNPReport b).isOk = false ∧
    (parseAttestationReport b).isOk = false ∧
    (verify evidence transformedContext options now).claims.reportStructure
      = false ∧
    (verify evidence transformedContext options now).errors ≠ [] := by
  have hsim : ∀ l : List Nat, l.length < 1184 →
      (parseSimulatorReport l).isOk = false := by
    intro l hl
    simp [parseSimulatorReport, hl, Except.isOk, Except.toBool]
  have hreal : ∀ l : List Nat, l.length < 1184 →
      (parseRealSEVSNPReport l).isOk = false := by
    intro l hl
    simp [parseRealSEVSNPReport, hl, Except.isOk, Except.toBool]
  have hpar : ∀ l : List Nat, l.length < 1184 →
      (parseAttestationReport l).isOk = false := by
    intro l hl
    unfold parseAttestationReport
    split
    · exact hsim l hl
    · exact hreal l hl
  refine ⟨hsim b hb, hreal b hb, hpar b hb, ?_, ?_⟩ <;>
  · cases hp : parseAttestationReport evidence.report with
    | ok p =>
      have := hpar evidence.report hev
      rw [hp] at this
      simp [Except.isOk, Except.toBool] at this
    | error e => simp [verify, structureCheck, hp]

/-- Witness for C4 with an empty buffer and empty-report evidence. -/
theorem undersized_report_fails_witness :
    ([] : List Nat).length < 1184 ∧
    (AttestationEvidence.report
      { report := [], measurement := "m", configHash := "c",
        sessionId := "s", outputHash := "o", timestamp := 0 }).length < 1184 ∧
    ((parseSimulatorReport []).isOk = false ∧
     (parseRealSEVSNPReport []).isOk = false ∧
     (parseAttestationReport []).isOk = false ∧
     (verify { report := [], measurement := "m", configHash := "c",
               sessionId := "s", outputHash := "o", timestamp := 0 }
        { entities := [], relations := [], task := "t" } {} 0).claims.reportStructure = false ∧
     (verify { report := [], measurement := "m", configHash := "c",
               sessionId := "s", outputHash := "o", timestamp := 0 }
        { entities := [], relations := [], task := "t" } {} 0).errors ≠ []) :=
  ⟨by decide, by decide,
   undersized_report_fails []
     { report := [], measurement := "m", configHash := "c",
       sessionId := "s", outputHash := "o", timestamp := 0 }
     { entities := [], relations := [], task := "t" } {} 0
     (by decide) (by decide)⟩

/-! ## C1: the session-binding claim -/

/-- A SHA-256 digest always has 32 bytes. -/
theorem sha256_length (msg : List Nat) : (sha256 msg).length = 32 := by
  simp [sha256, wordBytes]

/-- Hex encoding doubles the length. -/
theorem hexEncode_length (l : List Nat) :
    (hexEncode l).length = 2 * l.length := by
  induction l with
  | nil => rfl
  | cons b t ih =>
    simp only [hexEncode, String.length_append, ih, List.length_cons]
    simp [String.length]
    omega

/-- The canonical context hash is always 64 characters long. -/
theorem hashContext_length (context : TransformedContext) :
    (hashContext context).length = 64 := by
  simp [hashContext, hexEncode_length, sha256_length]

/-- C1: the `sessionBinding` claim of a verdict is `true` exactly when
the recomputed canonical hash of the transformed context equals
`evidence.outputHash` (as hex strings, hence byte-for-byte) and
`SHA256(sessionId ‖ configHash ‖ outputHash ‖ timestamp_be64)` equals
the first 32 bytes of the parsed report's `reportData` field; the claim
bit is exactly `verifyOutputBinding`'s result; and whenever the
recomputed hash differs — in particular when verifying evidence for a
context `X` against any modified context `X'` with a different canonical
hash — the claim is `false`, the verdict is invalid, and the explicit
output-hash-mismatch error is recorded. -/
theorem sessionBinding_iff (evidence : AttestationEvidence)
    (transformedContext : TransformedContext)
    (options : VerificationOptions) (now : Nat) :
    ((verify evidence transformedContext options now).claims.sessionBinding = true ↔
      (hashContext transformedContext = evidence.outputHash ∧
       ∃ rd, extractReportData evidence.report = .ok rd ∧
         sha256 (hexDecode evidence.sessionId ++ hexDecode evidence.configHash
           ++ hexDecode evidence.outputHash ++ be64 evidence.timestamp)
           = rd.take 32)) ∧
    ((verify evidence transformedContext options now).claims.sessionBinding
      = (verifyOutputBinding evidence transformedContext).valid) ∧
    (hashContext transformedContext ≠ evidence.outputHash →
      (verify evidence transformedContext options now).claims.sessionBinding
        = false ∧
      (verify evidence transformedContext options now).valid = false ∧
      ("Output binding verification failed: "
        ++ ("Output hash mismatch: evidence claims " ++ evidence.outputHash
          ++ ", actual is " ++ hashContext transformedContext))
        ∈ (verify evidence transformedContext options now).errors) := by
  have hclaim : (verify evidence transformedContext options now).claims.sessionBinding
      = (verifyOutputBinding evidence transformedContext).valid := by
    simp [verify]
  refine ⟨?_, hclaim, ?_⟩
  · rw [hclaim]
    unfold verifyOutputBinding extractReportData
    by_cases hm : hashContext transformedContext = evidence.outputHash
    · cases hpar : parseAttestationReport evidence.report with
      | error e => simp [hm, hpar, Except.map]
      | ok p =>
        by_cases hd : sha256 (hexDecode evidence.sessionId
            ++ (hexDecode evidence.configHash ++ (hexDecode evidence.outputHash
            ++ be64 evidence.timestamp))) = p.reportData.take 32 <;>
          simp [hm, hpar, Except.map, hd]
    · simp [hm]
  · intro hm
    have h4 : verifyOutputBinding evidence transformedContext =
        ⟨false, some ("Output hash mismatch: evidence claims "
          ++ evidence.outputHash ++ ", actual is "
          ++ hashContext transformedContext)⟩ := by
      unfold verifyOutputBinding
      simp [hm]
    refine ⟨by rw [hclaim, h4], ?_, ?_⟩
    · simp [verify, h4]
    · simp [verify, h4, List.mem_append]

/-- Witness for C1's tamper-detection part: evidence whose `outputHash`
is a 1-character string can never match the 64-character canonical hash,
so `sessionBinding` and `valid` are `false`. -/
theorem sessionBinding_iff_witness :
    hashContext { entities := [], relations := [], task := "t" } ≠
      (AttestationEvidence.outputHash
        { report := [], measurement := "m", configHash := "c",
          sessionId := "s", outputHash := "x", timestamp := 0 }) ∧
    ((verify { report := [], measurement := "m", configHash := "c",
               sessionId := "s", outputHash := "x", timestamp := 0 }
        { entities := [], relations := [], task := "t" } {} 0).claims.sessionBinding = false ∧
     (verify { report := [], measurement := "m", configHash := "c",
               sessionId := "s", outputHash := "x", timestamp := 0 }
        { entities := [], relations := [], task := "t" } {} 0).valid = false ∧
     ("Output binding verification failed: "
       ++ ("Output hash mismatch: evidence claims " ++ "x" ++ ", actual is "
         ++ hashContext { entities := [], relations := [], task := "t" }))
       ∈ (verify { report := [], measurement := "m", configHash := "c",
                   sessionId := "s", outputHash := "x", timestamp := 0 }
           { entities := [], relations := [], task := "t" } {} 0).errors) := by
  have hne : hashContext { entities := [], relations := [], task := "t" } ≠ "x" := by
    intro he
    have := congrArg String.length he
    rw [hashContext_length] at this
    simp [String.length] at this
  exact ⟨hne,
    (sessionBinding_iff
      { report := [], measurement := "m", configHash := "c",
        sessionId := "s", outputHash := "x", timestamp := 0 }
      { entities := [], relations := [], task := "t" } {} 0).2.2 hne⟩

/-! ## C9: strict-mode simulator evidence fails without an error entry -/

/-- C9: in strict mode with signature-chain validation enabled, evidence
carrying a simulator report makes `platformAuth` false while recording
only the simulator warning, no error string; so when every other check
passes (report parses, measurement matches, binding holds, no expected
config hash, fresh timestamp) the verdict has `valid = false` with
`errors = []` — `valid = false` does not imply a non-empty `errors`
array. -/
theorem simulator_strict_invalid_no_errors
    (evidence : AttestationEvidence)
    (transformedContext : TransformedContext)
    (options : VerificationOptions) (now : Nat)
    (hsim : isSimulatorReport evidence.report = true)
    (hpar : (parseAttestationReport evidence.report).isOk = true)
    (hmeas : options.expectedMeasurement = some evidence.measurement)
    (hmne : evidence.measurement ≠ "")
    (hbindv : (verifyOutputBinding evidence transformedContext).valid = true)
    (hcfg : options.expectedConfigHash = none)
    (hmode : options.mode.getD .strict = .strict)
    (hchain : options.validateSignatureChain ≠ some false)
    (hfresh1 : evidence.timestamp ≤ now)
    (hfresh2 : now - evidence.timestamp ≤ options.maxAge.getD 300000) :
    (verify evidence transformedContext options now).claims.platformAuth
      = false ∧
    "Simulator report detected - no real platform authentication"
      ∈ (verify evidence transformedContext options now).warnings ∧
    (verify evidence transformedContext options now).errors = [] ∧
    (verify evidence transformedContext options now).valid = false := by
  have h1 : structureCheck evidence = (true, []) := by
    cases hp : parseAttestationReport evidence.report with
    | ok p => simp [structureCheck, hp]
    | error e => rw [hp] at hpar; simp [Except.isOk, Except.toBool] at hpar
  have h2 : codeIdentityCheck evidence options (options.mode.getD .strict)
      = (true, [], []) := by
    simp [codeIdentityCheck, hmeas, hmne]
  have h3 : platformAuthCheck evidence options (options.mode.getD .strict)
      = (false, [],
         ["Simulator report detected - no real platform authentication"]) := by
    simp [platformAuthCheck, hchain, verifyPlatformSignature, hsim, hmode]
  have h5 : configBindingCheck evidence options = (true, []) := by
    simp [configBindingCheck, hcfg]
  have h6 : freshnessCheck evidence options now = (true, []) := by
    have hage1 : (0 : Int) ≤ (now : Int) - (evidence.timestamp : Int) := by
      omega
    have hage2 : (now : Int) - (evidence.timestamp : Int)
        ≤ ((options.maxAge.getD 300000 : Nat) : Int) := by
      omega
    simp [freshnessCheck, hage1, hage2]
  have h4e : (if (verifyOutputBinding evidence transformedContext).valid
      then ([] : List String)
      else ["Output binding verification failed: "
        ++ (verifyOutputBinding evidence transformedContext).error.getD "undefined"])
      = [] := by
    simp [hbindv]
  refine ⟨?_, ?_, ?_, ?_⟩ <;>
    simp [verify, h1, h2, h3, h4e, h5, h6, hbindv]

/-- A context whose canonical form is `{"entities":[],"model":null,"relations":[],"task":"t"}`. -/
def ctxT : TransformedContext := { entities := [], relations := [], task := "t" }

/-- The binding digest
`SHA256(sessionId ‖ configHash ‖ outputHash ‖ 1000_be64)` for the
witness evidence `evSim` (32 bytes). -/
def bindingDigestSim : List Nat :=
  [183, 5, 46, 222, 128, 38, 99, 134, 207, 49, 159, 26, 205, 231, 51, 63,
   30, 139, 184, 54, 140, 46, 80, 80, 111, 178, 93, 70, 186, 64, 192, 207]

/-- A 1184-byte simulator report embedding `bindingDigestSim`. -/
def reportSim : List Nat :=
  fakeMagic ++ [1, 0, 0, 0] ++ bindingDigestSim ++ List.replicate 1144 0

/-- Simulator evidence that passes every check except platform
authenticity. -/
def evSim : AttestationEvidence :=
  { report := reportSim
    measurement := "m"
    configHash := "6a180f1e9a76fcd8ae6f45f26ad06bde042a5ad22cfa2c92af02f6d028b95e9e"
    sessionId := "00112233445566778899aabbccddeeff"
    outputHash := "f7f202fefeb81fdecf6dbcc9cca7d2f5dc462ef768f3c6ce21a2be3d9db22119"
    timestamp := 1000 }

/-- Options used by the C9 witness: strict defaults with a matching
expected measurement. -/
def optsSim : VerificationOptions := { expectedMeasurement := some "m" }

/-! ## Induction principle and equation helpers for `Json` -/

/-- Structural induction over `Json` with membership hypotheses for the
nested lists, proved by strong induction on `sizeOf`. -/
theorem Json.myInduction (P : Json → Prop)
    (hnull : P .null) (hstr : ∀ s, P (.str s)) (hnum : ∀ q, P (.num q))
    (harr : ∀ items, (∀ j ∈ items, P j) → P (.arr items))
    (hobj : ∀ kvs, (∀ kv ∈ kvs, P kv.2) → P (.obj kvs)) :
    ∀ j, P j := by
  have key : ∀ (n : Nat) (j : Json), sizeOf j ≤ n → P j := by
    intro n
    induction n with
    | zero => intro j hle; cases j <;> simp at hle
    | succ n ih =>
      intro j hle
      cases j with
      | null => exact hnull
      | str s => exact hstr s
      | num q => exact hnum q
      | arr items =>
        refine harr items fun x hx => ih x ?_
        have h1 := List.sizeOf_lt_of_mem hx
        have h2 : sizeOf (Json.arr items) = 1 + sizeOf items := by simp
        omega
      | obj kvs =>
        refine hobj kvs fun kv hkv => ih kv.2 ?_
        have h1 := List.sizeOf_lt_of_mem hkv
        have h2 : sizeOf (Json.obj kvs) = 1 + sizeOf kvs := by simp
        have h3 : sizeOf kv.2 < sizeOf kv := by
          cases kv with
          | mk k v => simp
        omega
  exact fun j => key (sizeOf j) j le_rfl

/-- `renderArr` is `map render`. -/
theorem renderArr_eq (l : List Json) : renderArr l = l.map render := by
  induction l with
  | nil => rfl
  | cons j rest ih => simp [renderArr, ih]

/-- `renderObj` is a map over the entries. -/
theorem renderObj_eq (l : List (String × Json)) :
    renderObj l = l.map fun kv => "\"" ++ jsonEscape kv.1 ++ "\":" ++ render kv.2 := by
  induction l with
  | nil => rfl
  | cons kv rest ih => cases kv; simp [renderObj, ih]

/-- `sortKeysArr` is `map sortKeysRec`. -/
theorem sortKeysArr_eq (l : List Json) : sortKeysArr l = l.map sortKeysRec := by
  induction l with
  | nil => rfl
  | cons j rest ih => simp [sortKeysArr, ih]

/-- `sortKeysObj` maps `sortKeysRec` over the values. -/
theorem sortKeysObj_eq (l : List (String × Json)) :
    sortKeysObj l = l.map fun kv => (kv.1, sortKeysRec kv.2) := by
  induction l with
  | nil => rfl
  | cons kv rest ih => cases kv; simp [sortKeysObj, ih]

/-- `keysSortedArr` is `all keysSorted`. -/
theorem keysSortedArr_eq (l : List Json) :
    keysSortedArr l = l.all keysSorted := by
  induction l with
  | nil => rfl
  | cons j rest ih => simp [keysSortedArr, ih]

/-- `keysSortedObj` is `all` of `keysSorted` on the values. -/
theorem keysSortedObj_eq (l : List (String × Json)) :
    keysSortedObj l = l.all fun kv => keysSorted kv.2 := by
  induction l with
  | nil => rfl
  | cons kv rest ih => cases kv; simp [keysSortedObj, ih]

/-- `List.all` is invariant under permutation. -/
theorem all_of_perm {α : Type} {l₁ l₂ : List α} (p : α → Bool)
    (h : l₁.Perm l₂) : l₁.all p = l₂.all p := by
  have hiff : l₁.all p = true ↔ l₂.all p = true := by
    simp only [List.all_eq_true]
    exact ⟨fun h1 x hx => h1 x (h.mem_iff.mpr hx),
           fun h2 x hx => h2 x (h.mem_iff.mp hx)⟩
  cases ha : l₁.all p <;> cases hb : l₂.all p <;> simp_all

/-- `jsKeyOrder` is a permutation of the entry list. -/
theorem jsKeyOrder_perm (l : List (String × Json)) : (jsKeyOrder l).Perm l := by
  unfold jsKeyOrder
  refine List.Perm.trans ?_
    ((List.filter_append_perm (fun kv => isArrayIndex kv.1)
      (List.insertionSort kvLE l)).trans (List.perm_insertionSort kvLE l))
  exact (List.perm_insertionSort numLE _).append (List.Perm.refl _)

/-- When no key is an array index, `jsKeyOrder` is just the replacer's
lexicographic sort. -/
theorem jsKeyOrder_eq_of_noIdx (l : List (String × Json))
    (h : ∀ kv ∈ l, isArrayIndex kv.1 = false) :
    jsKeyOrder l = List.insertionSort kvLE l := by
  have hmem : ∀ kv ∈ List.insertionSort kvLE l, isArrayIndex kv.1 = false :=
    fun kv hkv => h kv ((List.perm_insertionSort kvLE l).mem_iff.mp hkv)
  unfold jsKeyOrder
  dsimp only
  have h1 : (List.insertionSort kvLE l).filter (fun kv => isArrayIndex kv.1)
      = [] :=
    List.filter_eq_nil_iff.mpr fun kv hkv => by simp [hmem kv hkv]
  have h2 : (List.insertionSort kvLE l).filter (fun kv => !isArrayIndex kv.1)
      = List.insertionSort kvLE l :=
    List.filter_eq_self.mpr fun kv hkv => by simp [hmem kv hkv]
  rw [h1, h2]
  simp

set_option maxRecDepth 100000 in
/-- Witness for C9: concrete simulator evidence whose binding digest is
genuinely valid; the verdict is invalid with an empty error list. -/
theorem simulator_strict_invalid_no_errors_witness :
    (isSimulatorReport evSim.report = true ∧
     (parseAttestationReport evSim.report).isOk = true ∧
     (verifyOutputBinding evSim ctxT).valid = true) ∧
    ((verify evSim ctxT optsSim 1000).claims.platformAuth = false ∧
     "Simulator report detected - no real platform authentication"
       ∈ (verify evSim ctxT optsSim 1000).warnings ∧
     (verify evSim ctxT optsSim 1000).errors = [] ∧
     (verify evSim ctxT optsSim 1000).valid = false) :=
  ⟨⟨by decide, by decide, by decide⟩,
   simulator_strict_invalid_no_errors evSim ctxT optsSim 1000
     (by decide) (by decide) rfl (by decide) (by decide) rfl rfl
     (by decide) (by decide) (by decide)⟩

/-! ## Sorted keys after the replacer -/

/-- A `kvLE`-sorted entry list has a chain-sorted key list. -/
theorem keysChain_of_sorted : ∀ l : List (String × Json),
    List.Sorted kvLE l → keysChainSorted (l.map fun kv => kv.1) = true := by
  intro l
  induction l with
  | nil => intro _; rfl
  | cons a rest ih =>
    intro hs
    rw [List.sorted_cons] at hs
    cases rest with
    | nil => rfl
    | cons b r2 =>
      have hab : kvLE a b := hs.1 b (List.mem_cons_self b r2)
      have hle : strLeB a.1 b.1 = true := (string_le_iff a.1 b.1).mp hab
      have htail := ih hs.2
      simp only [List.map_cons] at htail ⊢
      simp [keysChainSorted, hle, htail]

/-- `noIdxKeysArr` is `all noIdxKeys`. -/
theorem noIdxKeysArr_eq (l : List Json) :
    noIdxKeysArr l = l.all noIdxKeys := by
  induction l with
  | nil => rfl
  | cons j rest ih => simp [noIdxKeysArr, ih]

/-- `noIdxKeysObj` is `all` over keys and values. -/
theorem noIdxKeysObj_eq (l : List (String × Json)) :
    noIdxKeysObj l = l.all fun kv => !isArrayIndex kv.1 && noIdxKeys kv.2 := by
  induction l with
  | nil => rfl
  | cons kv rest ih =>
    cases kv
    simp [noIdxKeysObj, ih, Bool.and_assoc]

/-- When no key anywhere is an array index, the replacer's output has
lexicographically sorted keys at every nesting level.  (Without the
hypothesis this fails: `JSON.stringify` enumerates array-index keys
first in ascending numeric order, e.g. keys `10`, `2` render as `2`,
`10`.) -/
theorem keysSorted_sortKeysRec_noIdx : ∀ j : Json,
    noIdxKeys j = true → keysSorted (sortKeysRec j) = true := by
  apply Json.myInduction (fun j => noIdxKeys j = true → keysSorted (sortKeysRec j) = true)
  · intro _; rfl
  · intro s _; rfl
  · intro q _; rfl
  · intro items ih hall
    simp only [noIdxKeys, noIdxKeysArr_eq, List.all_eq_true] at hall
    simp only [sortKeysRec, keysSorted, keysSortedArr_eq, sortKeysArr_eq,
      List.all_map]
    rw [List.all_eq_true]
    intro x hx
    exact ih x hx (hall x hx)
  · intro kvs ih hall
    simp only [noIdxKeys, noIdxKeysObj_eq, List.all_eq_true,
      Bool.and_eq_true] at hall
    have hnoidx : ∀ kv ∈ sortKeysObj kvs, isArrayIndex kv.1 = false := by
      intro kv hkv
      rw [sortKeysObj_eq] at hkv
      rcases List.mem_map.mp hkv with ⟨kv0, hkv0, rfl⟩
      have := (hall kv0 hkv0).1
      simpa using this
    simp only [sortKeysRec, keysSorted, Bool.and_eq_true,
      jsKeyOrder_eq_of_noIdx (sortKeysObj kvs) hnoidx]
    constructor
    · exact keysChain_of_sorted _ (List.sorted_insertionSort kvLE _)
    · rw [keysSortedObj_eq,
        all_of_perm _ (List.perm_insertionSort kvLE (sortKeysObj kvs)),
        sortKeysObj_eq, List.all_map, List.all_eq_true]
      intro kv hkv
      exact ih kv hkv (hall kv hkv).2

/-! ## Whitespace analysis of the rendered output -/

/-- `strNo` distributes over append. -/
theorem strNo_append (c : Char) (s t : String) :
    strNo c (s ++ t) = (strNo c s && strNo c t) := by
  simp [strNo, String.data_append, List.all_append]

/-- Hex digits are never whitespace. -/
theorem hexDigit_no_ws : ∀ n : Nat, n < 16 →
    ((hexDigit n != ' ') && ((hexDigit n != '\t') && (hexDigit n != '\n'))) = true := by
  decide

/-- `escapeChar` output never contains a literal tab or newline: the
tab and newline characters themselves are turned into two-character
escapes. -/
theorem escapeChar_no_tab_nl (c : Char) :
    (strNo '\t' (escapeChar c) && strNo '\n' (escapeChar c)) = true := by
  unfold escapeChar
  split_ifs with h1 h2 h3 h4 h5 h6 h7 h8
  · decide
  · decide
  · decide
  · decide
  · decide
  · decide
  · decide
  · have d1 : c.toNat / 16 < 16 := by omega
    have d2 : c.toNat % 16 < 16 := Nat.mod_lt _ (by norm_num)
    have e1 := hexDigit_no_ws _ d1
    have e2 := hexDigit_no_ws _ d2
    simp only [Bool.and_eq_true] at e1 e2 ⊢
    constructor <;> rw [strNo_append] <;>
      simp [strNo, e1.1, e1.2.1, e1.2.2, e2.1, e2.2.1, e2.2.2]
  · simp only [Bool.and_eq_true]
    constructor <;> simp [strNo, String.singleton] <;>
      [exact h4; exact h5]

/-- For a non-space character, `escapeChar` output has no space. -/
theorem escapeChar_no_space (c : Char) (hc : c ≠ ' ') :
    strNo ' ' (escapeChar c) = true := by
  unfold escapeChar
  split_ifs with h1 h2 h3 h4 h5 h6 h7 h8
  · decide
  · decide
  · decide
  · decide
  · decide
  · decide
  · decide
  · have d1 : c.toNat / 16 < 16 := by omega
    have d2 : c.toNat % 16 < 16 := Nat.mod_lt _ (by norm_num)
    have e1 := hexDigit_no_ws _ d1
    have e2 := hexDigit_no_ws _ d2
    simp only [Bool.and_eq_true] at e1 e2
    rw [strNo_append]
    simp [strNo, e1.1, e2.1]
  · simp [strNo, String.singleton]
    exact hc

/-- `strConcat` of pieces each avoiding `c` avoids `c`. -/
theorem strConcat_no (c : Char) : ∀ l : List String,
    (∀ x ∈ l, strNo c x = true) → strNo c (strConcat l) = true := by
  intro l
  induction l with
  | nil => intro _; rfl
  | cons s rest ih =>
    intro h
    rw [strConcat, strNo_append]
    simp [h s (List.mem_cons_self s rest),
      ih fun x hx => h x (List.mem_cons_of_mem s hx)]

/-- `jsonEscape` never emits a literal tab. -/
theorem jsonEscape_no_tab (s : String) : strNo '\t' (jsonEscape s) = true := by
  apply strConcat_no
  intro x hx
  rcases List.mem_map.mp hx with ⟨d, _, rfl⟩
  exact (Bool.and_eq_true _ _ |>.mp (escapeChar_no_tab_nl d)).1

/-- `jsonEscape` never emits a literal newline. -/
theorem jsonEscape_no_nl (s : String) : strNo '\n' (jsonEscape s) = true := by
  apply strConcat_no
  intro x hx
  rcases List.mem_map.mp hx with ⟨d, _, rfl⟩
  exact (Bool.and_eq_true _ _ |>.mp (escapeChar_no_tab_nl d)).2

/-- `jsonEscape` of a space-free string is space-free. -/
theorem jsonEscape_no_space (s : String) (hs : strNo ' ' s = true) :
    strNo ' ' (jsonEscape s) = true := by
  apply strConcat_no
  intro x hx
  rcases List.mem_map.mp hx with ⟨d, hd, rfl⟩
  apply escapeChar_no_space
  rw [strNo, List.all_eq_true] at hs
  simpa using hs d hd

/-- All characters of `natStrGo` are decimal digits. -/
theorem natStrGo_digits : ∀ (fuel n : Nat),
    (natStrGo fuel n).all (fun d => '0' ≤ d && d ≤ '9') = true := by
  have hdig : ∀ m : Nat, m < 10 →
      (('0' ≤ Char.ofNat (48 + m)) && (Char.ofNat (48 + m) ≤ '9')) = true := by
    decide
  intro fuel
  induction fuel with
  | zero => intro n; rfl
  | succ fuel ih =>
    intro n
    unfold natStrGo
    split_ifs with h
    · simp only [List.all_cons, List.all_nil, Bool.and_true]
      exact hdig n h
    · rw [List.all_append]
      simp only [List.all_cons, List.all_nil, Bool.and_true, ih (n / 10)]
      simpa using hdig (n % 10) (Nat.mod_lt _ (by norm_num))

/-- A decimal digit is not whitespace. -/
theorem digit_not_ws (d : Char) (hd : ('0' ≤ d && d ≤ '9') = true) :
    ((d != ' ') && ((d != '\t') && (d != '\n'))) = true := by
  simp only [Bool.and_eq_true, bne_iff_ne, ne_eq] at hd ⊢
  refine ⟨fun he => ?_, fun he => ?_, fun he => ?_⟩ <;> subst he <;>
    exact absurd hd.1 (by decide)

/-- Weakening of `List.all`. -/
theorem all_mono {α : Type} {p q : α → Bool}
    (h : ∀ a, p a = true → q a = true) :
    ∀ l : List α, l.all p = true → l.all q = true := by
  intro l hl
  rw [List.all_eq_true] at hl ⊢
  exact fun a ha => h a (hl a ha)

/-- `natStr` is whitespace-free. -/
theorem natStr_no_ws (n : Nat) (c : Char) (hc : c = ' ' ∨ c = '\t' ∨ c = '\n') :
    strNo c (natStr n) = true := by
  rw [natStr, strNo]
  show (natStrGo (n + 1) n).all (fun d => d != c) = true
  refine all_mono (fun d hd => ?_) _ (natStrGo_digits (n + 1) n)
  have := digit_not_ws d hd
  simp only [Bool.and_eq_true] at this
  rcases hc with rfl | rfl | rfl
  · exact this.1
  · exact this.2.1
  · exact this.2.2

/-- The fractional digits kept by `formatRat` are all decimal digits. -/
theorem formatRat_frac_digits (fp : Nat) :
    (((List.replicate (10 - (natStrGo (fp + 1) fp).length) '0'
        ++ natStrGo (fp + 1) fp).reverse.dropWhile (· = '0')).reverse.all
      (fun d => '0' ≤ d && d ≤ '9')) = true := by
  rw [List.all_eq_true]
  intro d hd
  rw [List.mem_reverse] at hd
  have hd2 := (List.dropWhile_sublist (l := (List.replicate
      (10 - (natStrGo (fp + 1) fp).length) '0' ++ natStrGo (fp + 1) fp).reverse)
      (p := (· = '0'))).subset hd
  rw [List.mem_reverse, List.mem_append] at hd2
  rcases hd2 with hrep | hgo
  · rw [List.eq_of_mem_replicate hrep]; decide
  · exact (List.all_eq_true.mp (natStrGo_digits (fp + 1) fp)) d hgo

/-- `formatRat` output is whitespace-free (digits, sign and dot only). -/
theorem formatRat_no_ws (q : ℚ) (c : Char) (hc : c = ' ' ∨ c = '\t' ∨ c = '\n') :
    strNo c (formatRat q) = true := by
  have hsign : ∀ b : Prop, ∀ inst : Decidable b,
      strNo c (if b then "-" else "") = true := by
    intro b inst
    split_ifs <;> rcases hc with rfl | rfl | rfl <;> decide
  have hdot : strNo c "." = true := by
    rcases hc with rfl | rfl | rfl <;> decide
  unfold formatRat
  dsimp only
  split_ifs <;>
  · simp only [strNo_append, Bool.and_eq_true]
    repeat' apply And.intro
    all_goals first
      | (rcases hc with rfl | rfl | rfl <;> decide)
      | exact natStr_no_ws _ _ hc
      | (rw [strNo]
         refine all_mono (fun d hd => ?_) _ (formatRat_frac_digits _)
         have hws := digit_not_ws d hd
         simp only [Bool.and_eq_true] at hws
         rcases hc with rfl | rfl | rfl
         · exact hws.1
         · exact hws.2.1
         · exact hws.2.2)

/-- `joinComma` of pieces each avoiding `c` avoids `c`, provided the
comma itself is not `c`. -/
theorem joinComma_no (c : Char) (hcomma : strNo c "," = true) :
    ∀ l : List String, (∀ x ∈ l, strNo c x = true) →
      strNo c (joinComma l) = true := by
  intro l
  induction l with
  | nil => intro _; rfl
  | cons a rest ih =>
    intro h
    cases rest with
    | nil => exact h a (List.mem_cons_self a [])
    | cons b r2 =>
      have hj : joinComma (a :: b :: r2) = a ++ "," ++ joinComma (b :: r2) := rfl
      rw [hj, strNo_append, strNo_append]
      simp only [Bool.and_eq_true]
      exact ⟨⟨h a (List.mem_cons_self a _), hcomma⟩,
        ih fun x hx => h x (List.mem_cons_of_mem a hx)⟩

/-- `render` never emits a literal tab or newline: every control
character inside a string value is escaped, and all structural output
characters are printable. -/
theorem render_no_tab_nl : ∀ j : Json,
    (strNo '\t' (render j) && strNo '\n' (render j)) = true := by
  have hq : ∀ s, strNo '\t' ("\"" ++ jsonEscape s ++ "\"") = true ∧
      strNo '\n' ("\"" ++ jsonEscape s ++ "\"") = true := by
    intro s
    constructor <;> rw [strNo_append, strNo_append] <;>
      simp only [Bool.and_eq_true] <;>
      first
        | exact ⟨⟨by decide, jsonEscape_no_tab s⟩, by decide⟩
        | exact ⟨⟨by decide, jsonEscape_no_nl s⟩, by decide⟩
  apply Json.myInduction
  · decide
  · intro s
    simp only [render, Bool.and_eq_true]
    exact hq s
  · intro q
    simp only [render, Bool.and_eq_true]
    exact ⟨formatRat_no_ws q _ (Or.inr (Or.inl rfl)),
           formatRat_no_ws q _ (Or.inr (Or.inr rfl))⟩
  · intro items ih
    simp only [render, Bool.and_eq_true]
    constructor <;> rw [strNo_append, strNo_append] <;>
      simp only [Bool.and_eq_true] <;>
      refine ⟨⟨by decide, ?_⟩, by decide⟩ <;>
      apply joinComma_no _ (by decide) <;>
      · rw [renderArr_eq]
        intro x hx
        rcases List.mem_map.mp hx with ⟨j, hj, rfl⟩
        have := ih j hj
        simp only [Bool.and_eq_true] at this
        first
          | exact this.1
          | exact this.2
  · intro kvs ih
    simp only [render, Bool.and_eq_true]
    constructor <;> rw [strNo_append, strNo_append] <;>
      simp only [Bool.and_eq_true] <;>
      refine ⟨⟨by decide, ?_⟩, by decide⟩ <;>
      apply joinComma_no _ (by decide) <;>
      · rw [renderObj_eq]
        intro x hx
        rcases List.mem_map.mp hx with ⟨kv, hkv, rfl⟩
        have := ih kv hkv
        simp only [Bool.and_eq_true] at this
        rw [strNo_append, strNo_append, strNo_append]
        simp only [Bool.and_eq_true]
        first
          | exact ⟨⟨⟨by decide, jsonEscape_no_tab kv.1⟩, by decide⟩, this.1⟩
          | exact ⟨⟨⟨by decide, jsonEscape_no_nl kv.1⟩, by decide⟩, this.2⟩

/-- `List.all` after a (type-changing) `map`. -/
theorem all_map2 {α β : Type} (f : α → β) (p : β → Bool) :
    ∀ l : List α, (l.map f).all p = l.all fun a => p (f a) := by
  intro l
  induction l with
  | nil => rfl
  | cons a rest ih => simp [ih]

/-- Congruence for `List.all` under pointwise equality on members. -/
theorem all_congr_mem {α : Type} {p q : α → Bool} :
    ∀ l : List α, (∀ a ∈ l, p a = q a) → l.all p = l.all q := by
  intro l
  induction l with
  | nil => intro _; rfl
  | cons a rest ih =>
    intro h
    simp only [List.all_cons, h a (List.mem_cons_self a rest),
      ih fun x hx => h x (List.mem_cons_of_mem a hx)]

/-- `noSpaceStrsArr` is `all noSpaceStrs`. -/
theorem noSpaceStrsArr_eq (l : List Json) :
    noSpaceStrsArr l = l.all noSpaceStrs := by
  induction l with
  | nil => rfl
  | cons j rest ih => simp [noSpaceStrsArr, ih]

/-- `noSpaceStrsObj` is `all` over keys and values. -/
theorem noSpaceStrsObj_eq (l : List (String × Json)) :
    noSpaceStrsObj l = l.all fun kv => strNo ' ' kv.1 && noSpaceStrs kv.2 := by
  induction l with
  | nil => rfl
  | cons kv rest ih =>
    cases kv
    simp [noSpaceStrsObj, ih, Bool.and_assoc]

/-- The key-sorting replacer does not change which strings occur. -/
theorem noSpaceStrs_sortKeysRec : ∀ j : Json,
    noSpaceStrs (sortKeysRec j) = noSpaceStrs j := by
  apply Json.myInduction
  · rfl
  · intro s; rfl
  · intro q; rfl
  · intro items ih
    simp only [sortKeysRec, noSpaceStrs, noSpaceStrsArr_eq, sortKeysArr_eq,
      List.all_map]
    exact all_congr_mem _ fun j hj => ih j hj
  · intro kvs ih
    simp only [sortKeysRec, noSpaceStrs]
    rw [noSpaceStrsObj_eq, noSpaceStrsObj_eq,
      all_of_perm _ (jsKeyOrder_perm (sortKeysObj kvs)),
      sortKeysObj_eq, List.all_map]
    exact all_congr_mem _ fun kv hkv => by simp [ih kv hkv]

/-- If every string in the value is space-free, the rendered output
contains no space character. -/
theorem render_no_space : ∀ j : Json,
    noSpaceStrs j = true → strNo ' ' (render j) = true := by
  apply Json.myInduction (fun j => noSpaceStrs j = true → strNo ' ' (render j) = true)
  · intro _; decide
  · intro s hs
    simp only [render]
    rw [strNo_append, strNo_append]
    simp only [Bool.and_eq_true]
    exact ⟨⟨by decide, jsonEscape_no_space s hs⟩, by decide⟩
  · intro q _
    exact formatRat_no_ws q ' ' (Or.inl rfl)
  · intro items ih hall
    simp only [noSpaceStrs, noSpaceStrsArr_eq, List.all_eq_true] at hall
    simp only [render]
    rw [strNo_append, strNo_append]
    simp only [Bool.and_eq_true]
    refine ⟨⟨by decide, ?_⟩, by decide⟩
    apply joinComma_no _ (by decide)
    rw [renderArr_eq]
    intro x hx
    rcases List.mem_map.mp hx with ⟨j, hj, rfl⟩
    exact ih j hj (hall j hj)
  · intro kvs ih hall
    simp only [noSpaceStrs, noSpaceStrsObj_eq, List.all_eq_true] at hall
    simp only [render]
    rw [strNo_append, strNo_append]
    simp only [Bool.and_eq_true]
    refine ⟨⟨by decide, ?_⟩, by decide⟩
    apply joinComma_no _ (by decide)
    rw [renderObj_eq]
    intro x hx
    rcases List.mem_map.mp hx with ⟨kv, hkv, rfl⟩
    have hkv2 := hall kv hkv
    simp only [Bool.and_eq_true] at hkv2
    rw [strNo_append, strNo_append, strNo_append]
    simp only [Bool.and_eq_true]
    exact ⟨⟨⟨by decide, jsonEscape_no_space kv.1 hkv2.1⟩, by decide⟩,
      ih kv hkv hkv2.2⟩

/-- A space-free context normalizes to a JSON value whose strings are
all space-free. -/
theorem noSpaceStrs_normalize (X : TransformedContext)
    (hsf : ctxSpaceFree X = true) :
    noSpaceStrs (normalizeTransformedContext X) = true := by
  unfold ctxSpaceFree at hsf
  simp only [Bool.and_eq_true] at hsf
  obtain ⟨⟨⟨htask, hmodel⟩, hent⟩, hrel⟩ := hsf
  have hE : noSpaceStrsArr (normalizeEntities X.entities) = true := by
    rw [noSpaceStrsArr_eq, normalizeEntities, all_map2,
      all_of_perm _ (List.perm_insertionSort entLE X.entities),
      List.all_eq_true]
    intro e he
    have he2 := List.all_eq_true.mp hent e he
    simp only [Bool.and_eq_true] at he2
    have hA : noSpaceStrsObj ((normalizeAttributes e.attributes).map
        fun kv => (kv.1, attrValToJson kv.2)) = true := by
      rw [noSpaceStrsObj_eq, normalizeAttributes, List.map_map, all_map2,
        all_of_perm _ (List.perm_insertionSort attrLE e.attributes),
        List.all_eq_true]
      intro kv hkv
      have hkv2 := List.all_eq_true.mp he2.2 kv hkv
      simp only [Bool.and_eq_true] at hkv2
      cases hv : kv.2 with
      | str s2 =>
        have hkvs := hkv2.2
        rw [hv] at hkvs
        simp only [Function.comp, hv, attrValToJson, noSpaceStrs,
          Bool.and_eq_true]
        exact ⟨hkv2.1, hkvs⟩
      | num v =>
        simp only [Function.comp, hv, attrValToJson, noSpaceStrs,
          Bool.and_eq_true]
        exact ⟨hkv2.1, trivial⟩
    simp only [noSpaceStrs, noSpaceStrsObj, Bool.and_eq_true]
    repeat' apply And.intro
    all_goals first
      | rfl
      | decide
      | exact hA
      | exact he2.1.1
      | exact he2.1.2
  have hR : noSpaceStrsArr (normalizeRelations X.relations) = true := by
    rw [noSpaceStrsArr_eq, normalizeRelations, all_map2,
      all_of_perm _ (List.perm_insertionSort relLE X.relations),
      List.all_eq_true]
    intro r hr
    have hr2 := List.all_eq_true.mp hrel r hr
    simp only [Bool.and_eq_true] at hr2
    simp only [noSpaceStrs, noSpaceStrsObj, Bool.and_eq_true]
    repeat' apply And.intro
    all_goals first
      | rfl
      | decide
      | exact hr2.1.1
      | exact hr2.1.2
      | exact hr2.2
  have hM : noSpaceStrs (match X.model with
      | some m => Json.str m
      | none => Json.null) = true := by
    cases hm : X.model with
    | none => simp [noSpaceStrs]
    | some m =>
      rw [hm] at hmodel
      simpa [noSpaceStrs] using hmodel
  unfold normalizeTransformedContext
  simp only [noSpaceStrs, noSpaceStrsObj, Bool.and_eq_true]
  repeat' apply And.intro
  all_goals first
    | rfl
    | decide
    | exact hE
    | exact hR
    | exact hM
    | exact htask

/-- A context without array-index attribute keys normalizes to a JSON
value without array-index keys: all other keys of the canonical form
are fixed non-numeric strings. -/
theorem noIdxKeys_normalize (X : TransformedContext)
    (hni : ctxNoIndexKeys X = true) :
    noIdxKeys (normalizeTransformedContext X) = true := by
  unfold ctxNoIndexKeys at hni
  have hE : noIdxKeysArr (normalizeEntities X.entities) = true := by
    rw [noIdxKeysArr_eq, normalizeEntities, all_map2,
      all_of_perm _ (List.perm_insertionSort entLE X.entities),
      List.all_eq_true]
    intro e he
    have he2 := List.all_eq_true.mp hni e he
    have hA : noIdxKeysObj ((normalizeAttributes e.attributes).map
        fun kv => (kv.1, attrValToJson kv.2)) = true := by
      rw [noIdxKeysObj_eq, normalizeAttributes, List.map_map, all_map2,
        all_of_perm _ (List.perm_insertionSort attrLE e.attributes),
        List.all_eq_true]
      intro kv hkv
      have hkv2 := List.all_eq_true.mp he2 kv hkv
      cases hv : kv.2 with
      | str s2 =>
        simp only [Function.comp, hv, attrValToJson, noIdxKeys,
          Bool.and_eq_true]
        exact ⟨by simpa using hkv2, trivial⟩
      | num v =>
        simp only [Function.comp, hv, attrValToJson, noIdxKeys,
          Bool.and_eq_true]
        exact ⟨by simpa using hkv2, trivial⟩
    simp only [noIdxKeys, noIdxKeysObj, Bool.and_eq_true]
    repeat' apply And.intro
    all_goals trivial
  have hR : noIdxKeysArr (normalizeRelations X.relations) = true := by
    rw [noIdxKeysArr_eq, normalizeRelations, all_map2, List.all_eq_true]
    intro r _
    simp only [noIdxKeys, noIdxKeysObj, Bool.and_eq_true]
    repeat' apply And.intro
    all_goals trivial
  have hM : noIdxKeys (match X.model with
      | some m => Json.str m
      | none => Json.null) = true := by
    cases X.model <;> rfl
  unfold normalizeTransformedContext
  simp only [noIdxKeys, noIdxKeysObj, Bool.and_eq_true]
  repeat' apply And.intro
  all_goals trivial

/-! ## C8: whitespace and key order of the canonical form -/

/-- C8 as amended: the canonical form is the rendering of the
recursively reordered normalized value; the output never contains a tab
or newline character (string contents are JSON-escaped); it contains no
space character provided no string field of the context contains one;
and every object's keys appear in lexicographically sorted order
provided no attribute key is an array-index string.  (Both
unconditional parts of the original claim are refuted by
`canonicalize_space_and_numeric_keys`: a space inside a string value
passes through escaping, and `JSON.stringify` enumerates array-index
keys first in ascending numeric order, so attribute keys `10`, `2`
render as `2`, `10` — not lexicographic.) -/
theorem canonicalize_no_ws (X : TransformedContext) :
    canonicalize X = render (sortKeysRec (normalizeTransformedContext X)) ∧
    strNo '\t' (canonicalize X) = true ∧
    strNo '\n' (canonicalize X) = true ∧
    (ctxSpaceFree X = true → strNo ' ' (canonicalize X) = true) ∧
    (ctxNoIndexKeys X = true →
      keysSorted (sortKeysRec (normalizeTransformedContext X)) = true) := by
  have hws := render_no_tab_nl (sortKeysRec (normalizeTransformedContext X))
  simp only [Bool.and_eq_true] at hws
  refine ⟨rfl, hws.1, hws.2, fun hsf => ?_, fun hni => ?_⟩
  · apply render_no_space
    rw [noSpaceStrs_sortKeysRec]
    exact noSpaceStrs_normalize X hsf
  · exact keysSorted_sortKeysRec_noIdx _ (noIdxKeys_normalize X hni)

/-- Witness for C8 at a concrete context that is space-free and has no
array-index attribute keys. -/
theorem canonicalize_no_ws_witness :
    (ctxSpaceFree ctxT = true ∧ ctxNoIndexKeys ctxT = true) ∧
    (strNo '\t' (canonicalize ctxT) = true ∧
     strNo '\n' (canonicalize ctxT) = true ∧
     strNo ' ' (canonicalize ctxT) = true ∧
     keysSorted (sortKeysRec (normalizeTransformedContext ctxT)) = true) :=
  ⟨⟨by decide, by decide⟩,
   ⟨(canonicalize_no_ws ctxT).2.1, (canonicalize_no_ws ctxT).2.2.1,
    (canonicalize_no_ws ctxT).2.2.2.1 (by decide),
    (canonicalize_no_ws ctxT).2.2.2.2 (by decide)⟩⟩

/-- Counterexample to C8 as stated: a task string holding a space
yields a canonical form containing a space, and an entity with the
array-index attribute keys `10` and `2` is serialized with `2` before
`10` (ascending numeric enumeration), so its keys are not in
lexicographic order. -/
theorem canonicalize_space_and_numeric_keys :
    strNo ' '
      (canonicalize { entities := [], relations := [], task := "a b" }) = false ∧
    keysSorted (sortKeysRec (normalizeTransformedContext
      { entities := [⟨"E1", "R", [("10", .str "x"), ("2", .str "y")]⟩],
        relations := [], task := "t" })) = false ∧
    canonicalize
      { entities := [⟨"E1", "R", [("10", .str "x"), ("2", .str "y")]⟩],
        relations := [], task := "t" }
      = "\x7b\"entities\":[\x7b\"attributes\":\x7b\"2\":\"y\",\"10\":\"x\"\x7d,\"role\":\"R\",\"syntheticId\":\"E1\"\x7d],\"model\":null,\"relations\":[],\"task\":\"t\"\x7d" := by
  refine ⟨by decide, by decide, by decide⟩

/-! ## C3: permutation invariance of the canonical form -/

/-- Two sorted permutations of one another are equal when the sort keys
are distinct within the list. -/
theorem sorted_perm_eq_nodup {α β : Type} [LinearOrder β] [DecidableEq α]
    (key : α → β) (l₁ l₂ : List α) (hp : l₁.Perm l₂)
    (hs₁ : List.Sorted (fun a b => key a ≤ key b) l₁)
    (hs₂ : List.Sorted (fun a b => key a ≤ key b) l₂)
    (hn : (l₁.map key).Nodup) : l₁ = l₂ := by
  have anti : ∀ a b : α, (key a < key b ∨ a = b) → (key b < key a ∨ b = a) →
      a = b := by
    rintro a b (h1 | rfl) h2
    · rcases h2 with h2 | h2
      · exact absurd h2 (lt_asymm h1)
      · exact h2.symm
    · rfl
  have strengthen : ∀ l : List α, List.Sorted (fun a b => key a ≤ key b) l →
      (l.map key).Nodup → List.Sorted (fun a b => key a < key b ∨ a = b) l := by
    intro l hs hnd
    have hne : l.Pairwise fun a b => key a ≠ key b := List.pairwise_map.mp hnd
    exact (hs.and hne).imp fun h => Or.inl (lt_of_le_of_ne h.1 h.2)
  have hn₂ : (l₂.map key).Nodup := ((hp.map key).nodup_iff).mp hn
  exact @List.eq_of_perm_of_sorted _ _ ⟨anti⟩ _ _ hp
    (strengthen l₁ hs₁ hn) (strengthen l₂ hs₂ hn₂)

/-- Two sorted permutations of one another are equal when the sort key
is injective. -/
theorem sorted_perm_eq_inj {α β : Type} [LinearOrder β]
    (key : α → β) (hinj : ∀ a b : α, key a = key b → a = b)
    (l₁ l₂ : List α) (hp : l₁.Perm l₂)
    (hs₁ : List.Sorted (fun a b => key a ≤ key b) l₁)
    (hs₂ : List.Sorted (fun a b => key a ≤ key b) l₂) : l₁ = l₂ := by
  have anti : ∀ a b : α, (key a < key b ∨ a = b) → (key b < key a ∨ b = a) →
      a = b := by
    rintro a b (h1 | rfl) h2
    · rcases h2 with h2 | h2
      · exact absurd h2 (lt_asymm h1)
      · exact h2.symm
    · rfl
  have strengthen : ∀ l : List α, List.Sorted (fun a b => key a ≤ key b) l →
      List.Sorted (fun a b => key a < key b ∨ a = b) l := by
    intro l hs
    refine hs.imp fun {a b} h => ?_
    rcases lt_or_eq_of_le h with hlt | heq
    · exact Or.inl hlt
    · exact Or.inr (hinj a b heq)
  exact @List.eq_of_perm_of_sorted _ _ ⟨anti⟩ _ _ hp
    (strengthen l₁ hs₁) (strengthen l₂ hs₂)

/-- The relation sort key is injective: a relation is exactly its
`(from, to, type)` triple. -/
theorem relKey_inj : ∀ a b : Relation, relKey a = relKey b → a = b := by
  intro a b h
  unfold relKey at h
  cases a with
  | mk ta fa t2a =>
    cases b with
    | mk tb fb t2b =>
      simp only [toLex_inj, Prod.mk.injEq] at h
      simp [h.1, h.2.1, h.2.2]

/-- C3: for two transformed contexts that agree up to a permutation of
the entities array and of the relations array (with the data-model
invariant that `syntheticId`s are unique within a context), the
canonical strings are identical and the hashes are identical. -/
theorem hash_perm_invariant (c1 c2 : TransformedContext)
    (he : c1.entities.Perm c2.entities)
    (hr : c1.relations.Perm c2.relations)
    (ht : c1.task = c2.task) (hm : c1.model = c2.model)
    (hn : (c1.entities.map Entity.syntheticId).Nodup) :
    canonicalize c1 = canonicalize c2 ∧ hashContext c1 = hashContext c2 := by
  have hE : List.insertionSort entLE c1.entities
      = List.insertionSort entLE c2.entities := by
    refine sorted_perm_eq_nodup Entity.syntheticId _ _
      ((List.perm_insertionSort entLE c1.entities).trans
        (he.trans (List.perm_insertionSort entLE c2.entities).symm))
      (List.sorted_insertionSort entLE c1.entities)
      (List.sorted_insertionSort entLE c2.entities) ?_
    exact (((List.perm_insertionSort entLE c1.entities).map
      Entity.syntheticId).nodup_iff).mpr hn
  have hRel : List.insertionSort relLE c1.relations
      = List.insertionSort relLE c2.relations :=
    sorted_perm_eq_inj relKey relKey_inj _ _
      ((List.perm_insertionSort relLE c1.relations).trans
        (hr.trans (List.perm_insertionSort relLE c2.relations).symm))
      (List.sorted_insertionSort relLE c1.relations)
      (List.sorted_insertionSort relLE c2.relations)
  have hcan : canonicalize c1 = canonicalize c2 := by
    unfold canonicalize normalizeTransformedContext normalizeEntities
      normalizeRelations
    rw [hE, hRel, ht, hm]
  exact ⟨hcan, by unfold hashContext; rw [hcan]⟩

/-- Witness for C3: two concrete contexts that differ only in the order
of their entities and relations arrays. -/
theorem hash_perm_invariant_witness :
    (TransformedContext.entities
        { entities := [⟨"E1", "Actor", [("k", .str "v")]⟩, ⟨"E2", "Target", []⟩]
          relations := [⟨"linked_to", "E1", "E2"⟩, ⟨"reports_to", "E2", "E1"⟩]
          task := "analyze", model := some "g" }).Perm
      [⟨"E2", "Target", []⟩, ⟨"E1", "Actor", [("k", .str "v")]⟩] ∧
    (canonicalize
        { entities := [⟨"E1", "Actor", [("k", .str "v")]⟩, ⟨"E2", "Target", []⟩]
          relations := [⟨"linked_to", "E1", "E2"⟩, ⟨"reports_to", "E2", "E1"⟩]
          task := "analyze", model := some "g" }
      = canonicalize
        { entities := [⟨"E2", "Target", []⟩, ⟨"E1", "Actor", [("k", .str "v")]⟩]
          relations := [⟨"reports_to", "E2", "E1"⟩, ⟨"linked_to", "E1", "E2"⟩]
          task := "analyze", model := some "g" } ∧
     hashContext
        { entities := [⟨"E1", "Actor", [("k", .str "v")]⟩, ⟨"E2", "Target", []⟩]
          relations := [⟨"linked_to", "E1", "E2"⟩, ⟨"reports_to", "E2", "E1"⟩]
          task := "analyze", model := some "g" }
      = hashContext
        { entities := [⟨"E2", "Target", []⟩, ⟨"E1", "Actor", [("k", .str "v")]⟩]
          relations := [⟨"reports_to", "E2", "E1"⟩, ⟨"linked_to", "E1", "E2"⟩]
          task := "analyze", model := some "g" }) :=
  ⟨by decide,
   hash_perm_invariant _ _ (by decide) (by decide) rfl rfl (by decide)⟩

/-! ## C10: the `model` key is always emitted -/

/-- The canonical string decomposed around its four top-level entries
(the keys are already in sorted order, so the replacer's sort is the
identity on them). -/
theorem canonicalize_model_shape (X : TransformedContext) :
    (canonicalize X).data =
      "\x7b\"entities\":".data
        ++ (render (sortKeysRec (Json.arr (normalizeEntities X.entities)))).data
      ++ ",\"model\":".data
        ++ (render (sortKeysRec (match X.model with
            | some m => Json.str m
            | none => Json.null))).data
      ++ ",\"relations\":".data
        ++ (render (sortKeysRec (Json.arr (normalizeRelations X.relations)))).data
      ++ ",\"task\":".data ++ (render (sortKeysRec (Json.str X.task))).data
      ++ "\x7d".data := by
  show (render (Json.obj (List.insertionSort kvLE
    [("entities", sortKeysRec (Json.arr (normalizeEntities X.entities))),
     ("model", sortKeysRec (match X.model with
        | some m => Json.str m
        | none => Json.null)),
     ("relations", sortKeysRec (Json.arr (normalizeRelations X.relations))),
     ("task", sortKeysRec (Json.str X.task))]))).data = _
  rw [show ∀ v1 v2 v3 v4 : Json, List.insertionSort kvLE
      [("entities", v1), ("model", v2), ("relations", v3), ("task", v4)] =
      [("entities", v1), ("model", v2), ("relations", v3), ("task", v4)]
    from fun v1 v2 v3 v4 => rfl]
  simp [render, renderObj, joinComma, jsonEscape, strConcat, escapeChar,
    String.data_append, List.append_assoc]

/-- C10: `canonicalize` always emits a `"model"` key; when the optional
model field is absent it is serialized as `null`, so a model-less
context canonicalizes and hashes identically to the same context with
the model explicitly unset (both are `model := none` in the data model),
and its canonical string contains `"model":null`. -/
theorem model_key_always_emitted (X : TransformedContext) :
    List.IsInfix ("\"model\"".data) (canonicalize X).data ∧
    (X.model = none →
      (List.IsInfix ("\"model\":null".data) (canonicalize X).data ∧
       canonicalize X = canonicalize { X with model := none } ∧
       hashContext X = hashContext { X with model := none })) := by
  constructor
  · refine ⟨"\x7b\"entities\":".data
      ++ (render (sortKeysRec (Json.arr (normalizeEntities X.entities)))).data
      ++ [','],
      (':' :: (render (sortKeysRec (match X.model with
          | some m => Json.str m
          | none => Json.null))).data)
      ++ ",\"relations\":".data
      ++ (render (sortKeysRec (Json.arr (normalizeRelations X.relations)))).data
      ++ ",\"task\":".data ++ (render (sortKeysRec (Json.str X.task))).data
      ++ "\x7d".data, ?_⟩
    rw [canonicalize_model_shape X]
    simp [List.append_assoc]
  · intro hX
    have hXX : ({ X with model := none } : TransformedContext) = X := by
      cases X
      simp_all
    refine ⟨?_, by rw [hXX], by rw [hXX]⟩
    refine ⟨"\x7b\"entities\":".data
      ++ (render (sortKeysRec (Json.arr (normalizeEntities X.entities)))).data
      ++ [','],
      ",\"relations\":".data
      ++ (render (sortKeysRec (Json.arr (normalizeRelations X.relations)))).data
      ++ ",\"task\":".data ++ (render (sortKeysRec (Json.str X.task))).data
      ++ "\x7d".data, ?_⟩
    rw [canonicalize_model_shape X, hX]
    simp [render, sortKeysRec, List.append_assoc]

/-- Witness for C10 at a concrete model-less context. -/
theorem model_key_always_emitted_witness :
    ctxT.model = none ∧
    (List.IsInfix ("\"model\"".data) (canonicalize ctxT).data ∧
     List.IsInfix ("\"model\":null".data) (canonicalize ctxT).data ∧
     canonicalize ctxT = canonicalize { ctxT with model := none } ∧
     hashContext ctxT = hashContext { ctxT with model := none }) :=
  ⟨rfl, (model_key_always_emitted ctxT).1,
   ((model_key_always_emitted ctxT).2 rfl).1,
   ((model_key_always_emitted ctxT).2 rfl).2.1,
   ((model_key_always_emitted ctxT).2 rfl).2.2⟩

end AxiomCore
